import Mathlib

/-!
Verification development for the streaming OSM XML ingest core of libosmium
(src/include/osmium/io/detail/xml_input_format.hpp and
src/include/osmium/osm/node_ref.hpp).

The XML parser of the source is an event-driven state machine: the Expat
library delivers start-element, end-element, and character-data events, which
the member functions XMLParser::start_element, XMLParser::end_element and
XMLParser::characters interpret.  We embed that machine shallowly: an event is
a value of an inductive type, the parser members become a step function over a
state record, and the run loop of XMLParser::run becomes a recursion over a
list of input chunks.  Entities are emitted into a buffer that is flushed into
an output list (the output queue), mirroring flush_buffer and the tail of run.

External code that the header file calls but that is not part of the three
source files (the builder classes, the Header map, char_to_item_type,
string_to_object_id, OSMObject::set_attribute, the header promise in the
Parser base class) is modelled from the specification where the claims need
it; each such definition carries a doc comment saying so.  Numeric attribute
conversion (atof on lat/lon, ISO-8601 timestamps, numeric user ids) is
floating-point or external and is not needed by any claim; such attribute
values are retained as raw strings.
-/

deriving instance DecidableEq for Except

namespace Libosmium

/-- XML events as delivered by the Expat driver (start_element_wrapper,
end_element_wrapper, character_data_wrapper in xml_input_format.hpp).
Attributes are the expat attrs array folded into name/value pairs, in
document order. -/
inductive XmlEvent
  | startEl (name : String) (attrs : List (String × String))
  | endEl (name : String)
  | chars (text : String)
deriving DecidableEq, Repr

/-- The context enumeration of XMLParser (enum class context). -/
inductive Context
  | root
  | top
  | node
  | way
  | relation
  | changeset
  | discussion
  | comment
  | commentText
  | ignoredNode
  | ignoredWay
  | ignoredRelation
  | ignoredChangeset
  | inObject
deriving DecidableEq, Repr

/-- OSM item types (osmium::item_type), restricted to the constructors the
parser mentions. -/
inductive ItemType
  | undefined
  | node
  | way
  | relation
  | changeset
  | area
deriving DecidableEq, Repr

/-- Modelled from the spec: char_to_item_type (osm/item_type.hpp, not among
the source files).  The spec says the first character of a member type maps
n to node, w to way, r to relation, and anything else fails the member-type
check; the extra c/a cases mirror the item_type vocabulary and also fail
that check. -/
def charToItemType (c : Char) : ItemType :=
  if c = 'n' then .node
  else if c = 'w' then .way
  else if c = 'r' then .relation
  else if c = 'c' then .changeset
  else if c = 'a' then .area
  else .undefined

/-- The item type determined by the first character of a type attribute
value (value[0] in XMLParser::start_element); an empty value has no
first character and yields undefined. -/
def firstCharItemType (v : String) : ItemType :=
  match v.data with
  | [] => .undefined
  | c :: _ => charToItemType c

/-- Digits of a decimal number, most significant first, folded into a Nat;
stops at the first non-digit like atoll does. -/
def digitsToNat : List Char → Nat → Nat
  | [], n => n
  | c :: cs, n => if c.isDigit then digitsToNat cs (n * 10 + (c.toNat - 48)) else n

/-- Modelled from the spec: string_to_object_id (osm/types_from_string.hpp,
not among the source files) parses the signed decimal id of a ref
attribute; like atoll it reads an optional sign and then digits and ignores
trailing garbage, returning 0 if no digits are present. -/
def parseId (s : String) : Int :=
  match s.data with
  | '-' :: cs => - (digitsToNat cs 0 : Int)
  | '+' :: cs => (digitsToNat cs 0 : Int)
  | cs => (digitsToNat cs 0 : Int)

/-- Modelled from the spec: the Header (io/header.hpp, not among the source
files) is a mapping from small string keys to string values plus a
sequence of boxes and the has_multiple_object_versions flag.  Box contents
are floating-point and irrelevant to every claim, so only their number is
recorded. -/
structure HeaderData where
  kv : List (String × String) := []
  boxes : Nat := 0
  hasMultipleObjectVersions : Bool := false
deriving DecidableEq, Repr

/-- Header::set: update-or-append a key/value pair. -/
def HeaderData.set (h : HeaderData) (k v : String) : HeaderData :=
  { h with kv := (h.kv.filter (fun p => ¬ (p.1 = k))) ++ [(k, v)] }

/-- Header::get: the value stored for a key, defaulting to the empty
string. -/
def HeaderData.get (h : HeaderData) (k : String) : String :=
  (((h.kv.find? (fun p => p.1 = k))).map (fun p => p.2)).getD ""

/-- The part of an OSMObject that XMLParser::init_object populates.  The
lat/lon attribute values are converted with atof in the source; every claim
is independent of the numeric value, so the raw strings are retained. -/
structure ObjectData where
  visible : Bool := true
  user : String := ""
  lonRaw : Option String := none
  latRaw : Option String := none
  attrs : List (String × String) := []
deriving DecidableEq, Repr

/-- Modelled from the spec: OSMObject::set_attribute (osm/object.hpp, not
among the source files).  The spec gives visible as a boolean attribute,
default true, set false by an explicit attribute; other recognized scalar
attributes are kept generically since no claim depends on their parsed
values. -/
def setAttribute (o : ObjectData) (name value : String) : ObjectData :=
  if name = "visible" then
    if value = "true" then { o with visible := true }
    else if value = "false" then { o with visible := false }
    else o
  else { o with attrs := o.attrs ++ [(name, value)] }

/-- The per-attribute action of the check_attributes lambda of init_object:
lon, lat and user are intercepted, everything else goes through
set_attribute. -/
def objAttrStep (o : ObjectData) (p : String × String) : ObjectData :=
  if p.1 = "lon" then { o with lonRaw := some p.2 }
  else if p.1 = "lat" then { o with latRaw := some p.2 }
  else if p.1 = "user" then { o with user := p.2 }
  else setAttribute o p.1 p.2

/-- XMLParser::init_object: the object starts with its defaults, is forced
invisible when inside a delete section, and then the attributes are applied
in document order (the user value is applied via add_user). -/
def initObject (inDelete : Bool) (attrs : List (String × String)) : ObjectData :=
  attrs.foldl objAttrStep (if inDelete then { visible := false } else {})

/-- The part of a Changeset that XMLParser::init_changeset populates.  The
min/max bounds attributes are converted with atof in the source and only
their raw strings are kept; note that init_changeset never consults the
delete-section flag and the spec gives changesets no visible attribute. -/
structure ChangesetData where
  user : String := ""
  minLonRaw : Option String := none
  minLatRaw : Option String := none
  maxLonRaw : Option String := none
  maxLatRaw : Option String := none
  attrs : List (String × String) := []
deriving DecidableEq, Repr

/-- XMLParser::init_changeset: bounds attributes and user are intercepted,
everything else goes through the changeset set_attribute (modelled from the
spec as a generic store; the spec lists no visible attribute for
changesets). -/
def initChangeset (attrs : List (String × String)) : ChangesetData :=
  attrs.foldl (fun c p =>
    if p.1 = "min_lon" then { c with minLonRaw := some p.2 }
    else if p.1 = "min_lat" then { c with minLatRaw := some p.2 }
    else if p.1 = "max_lon" then { c with maxLonRaw := some p.2 }
    else if p.1 = "max_lat" then { c with maxLatRaw := some p.2 }
    else if p.1 = "user" then { c with user := p.2 }
    else { c with attrs := c.attrs ++ [(p.1, p.2)] }) {}

/-- A changeset discussion comment (date and uid are parsed by external
code in the source; the raw attribute strings are retained).  The body is
attached later by add_comment_text. -/
structure CommentData where
  date : String := ""
  uid : String := ""
  user : String := ""
  body : String := ""
deriving DecidableEq, Repr

/-- A relation member as appended by RelationMemberListBuilder::add_member. -/
structure MemberData where
  type : ItemType
  ref : Int
  role : String
deriving DecidableEq, Repr

/-- One nested length-prefixed sub-list inside an entity, in the order the
sub-list builders were created. -/
inductive SubItem
  | tagList (tags : List (String × String))
  | wayNodeList (refs : List Int)
  | memberList (members : List MemberData)
  | discussion (comments : List CommentData)
deriving DecidableEq, Repr

/-- The kind of a nested sub-list. -/
inductive SubKind
  | tags
  | nodeRefs
  | members
  | comments
deriving DecidableEq, Repr

/-- The kind of a sub-item. -/
def SubItem.kind : SubItem → SubKind
  | .tagList _ => .tags
  | .wayNodeList _ => .nodeRefs
  | .memberList _ => .members
  | .discussion _ => .comments

/-- A committed top-level entity in the packed buffer. -/
inductive Entity
  | node (obj : ObjectData) (subs : List SubItem)
  | way (obj : ObjectData) (subs : List SubItem)
  | relation (obj : ObjectData) (subs : List SubItem)
  | changeset (cs : ChangesetData) (subs : List SubItem)
deriving DecidableEq, Repr

/-- The nested sub-lists of an entity. -/
def Entity.subs : Entity → List SubItem
  | .node _ s => s
  | .way _ s => s
  | .relation _ s => s
  | .changeset _ s => s

/-- An entity builder in progress (NodeBuilder / WayBuilder /
RelationBuilder): the scalar object part plus the sealed sub-lists written
so far. -/
structure EntBuild where
  obj : ObjectData
  subs : List SubItem := []
deriving DecidableEq, Repr

/-- A ChangesetBuilder in progress. -/
structure CsBuild where
  cs : ChangesetData
  subs : List SubItem := []
deriving DecidableEq, Repr

/-- The consumer's entity mask (osmium::osm_entity_bits::type
m_read_types). -/
structure Mask where
  node : Bool
  way : Bool
  relation : Bool
  changeset : Bool
deriving DecidableEq, Repr

/-- The empty mask (osm_entity_bits::nothing). -/
def Mask.nothing : Mask := ⟨false, false, false, false⟩

/-- The full mask (osm_entity_bits::all). -/
def Mask.all : Mask := ⟨true, true, true, true⟩

/-- The errors the parser can raise.  formatVersion with a value mirrors
format_version_error(const char*), formatVersion none the zero-argument
constructor; unknownRoot, unknownMemberType and missingRef mirror the three
xml_error throws in start_element; assertionFailure marks an assert in the
source firing; internal marks a dereference of an absent builder. -/
inductive ParseError
  | formatVersion (v : Option String)
  | unknownRoot (name : String)
  | unknownMemberType
  | missingRef
  | assertionFailure
  | internal
deriving DecidableEq, Repr

/-- The whole state of one XMLParser, with the fields of the class plus the
buffer/output pair of the Parser base (modelled from the spec) and three
ghost observers (entityStarts, rootCount, sawOsmChange) that count
behaviour the theorems talk about without influencing it. -/
structure MachineState where
  context : Context := .root
  lastContext : Context := .root
  inDeleteSection : Bool := false
  header : HeaderData := {}
  headerDone : Bool := false
  resolvedHeader : Option HeaderData := none
  nodeB : Option EntBuild := none
  wayB : Option EntBuild := none
  relB : Option EntBuild := none
  csB : Option CsBuild := none
  tlB : Option (List (String × String)) := none
  wnlB : Option (List Int) := none
  rmlB : Option (List MemberData) := none
  discB : Option (List CommentData) := none
  commentText : String := ""
  buffer : List Entity := []
  outputs : List (List Entity) := []
  mask : Mask
  entityStarts : Nat := 0
  rootCount : Nat := 0
  sawOsmChange : Bool := false
deriving DecidableEq, Repr

/-- The freshly constructed parser state (the XMLParser constructor). -/
def initState (m : Mask) : MachineState := { mask := m }

/-- Modelled from the spec: the header promise of the Parser base class
(io/detail/input_format.hpp, not among the source files) is a one-shot
slot; resolving it a second time is a silent no-op.  This is
XMLParser::header_is_done, which guards the resolution with
m_header_is_done. -/
def headerIsDone (s : MachineState) : MachineState :=
  if s.headerDone then s
  else { s with headerDone := true, resolvedHeader := some s.header }

/-- Fixed buffer capacity (static constexpr int buffer_size = 2 * 1000 *
1000). -/
def bufferSize : Nat := 2 * 1000 * 1000

/-- The committed byte count of the current buffer, given the packed size
of each entity (the sizes are produced by the builder layer, which is not
among the source files, so they are a parameter everywhere). -/
def committedBytes (sz : Entity → Nat) (s : MachineState) : Nat :=
  (s.buffer.map sz).sum

/-- XMLParser::flush_buffer: when the committed byte count exceeds
buffer_size / 10 * 9, the buffer is moved to the output queue and replaced
by a fresh one of the same capacity. -/
def flushBuffer (sz : Entity → Nat) (s : MachineState) : MachineState :=
  if bufferSize / 10 * 9 < committedBytes sz s then
    { s with outputs := s.outputs ++ [s.buffer], buffer := [] }
  else s

/-- The per-attribute action of the root element (the check_attributes
lambda in the context::root case of start_element): the version attribute
is stored and checked against 0.6, the generator attribute is stored,
everything else is ignored. -/
def rootAttrStep (h : HeaderData) (p : String × String) : Except ParseError HeaderData :=
  if p.1 = "version" then
    let h := h.set "version" p.2
    if p.2 = "0.6" then Except.ok h else Except.error (ParseError.formatVersion (some p.2))
  else if p.1 = "generator" then Except.ok (h.set "generator" p.2)
  else Except.ok h

/-- start_element in context::root: osm and osmChange set up the header
(osmChange additionally sets the multi-version flag), the attributes are
checked in order, a missing version is an error afterwards, and any other
element is the unknown-top-level error.  rootCount and sawOsmChange are
ghost observers. -/
def startRoot (s : MachineState) (el : String) (attrs : List (String × String)) :
    Except ParseError MachineState :=
  if el = "osm" ∨ el = "osmChange" then
    match attrs.foldlM rootAttrStep
        (if el = "osmChange" then { s.header with hasMultipleObjectVersions := true }
         else s.header) with
    | .error e => .error e
    | .ok h =>
      if h.get "version" = "" then .error (.formatVersion none)
      else .ok { s with header := h, context := .top,
                        rootCount := s.rootCount + 1,
                        sawOsmChange := s.sawOsmChange || el = "osmChange" }
  else .error (.unknownRoot el)

/-- start_element in context::top.  The assert(!m_tl_builder) is modelled
as an assertion-failure error.  Each recognized entity element first
resolves the header promise and then either opens the matching builder or
moves to the ignored state, depending on the mask; bounds adds a box to the
header; delete sets the delete-section flag; anything else (including
create and modify) falls off the if-chain and changes nothing. -/
def startTop (s : MachineState) (el : String) (attrs : List (String × String)) :
    Except ParseError MachineState :=
  if s.tlB.isSome then .error .assertionFailure
  else if el = "node" then
    let s := headerIsDone { s with entityStarts := s.entityStarts + 1 }
    if s.mask.node then
      .ok { s with nodeB := some { obj := initObject s.inDeleteSection attrs }, context := .node }
    else .ok { s with context := .ignoredNode }
  else if el = "way" then
    let s := headerIsDone { s with entityStarts := s.entityStarts + 1 }
    if s.mask.way then
      .ok { s with wayB := some { obj := initObject s.inDeleteSection attrs }, context := .way }
    else .ok { s with context := .ignoredWay }
  else if el = "relation" then
    let s := headerIsDone { s with entityStarts := s.entityStarts + 1 }
    if s.mask.relation then
      .ok { s with relB := some { obj := initObject s.inDeleteSection attrs }, context := .relation }
    else .ok { s with context := .ignoredRelation }
  else if el = "changeset" then
    let s := headerIsDone { s with entityStarts := s.entityStarts + 1 }
    if s.mask.changeset then
      .ok { s with csB := some { cs := initChangeset attrs }, context := .changeset }
    else .ok { s with context := .ignoredChangeset }
  else if el = "bounds" then
    .ok { s with header := { s.header with boxes := s.header.boxes + 1 } }
  else if el = "delete" then
    .ok { s with inDeleteSection := true }
  else .ok s

/-- The k/v pair of a tag element (the check_attributes lambda of
get_tag). -/
def tagKV (attrs : List (String × String)) : String × String :=
  attrs.foldl (fun kv p =>
    if p.1 = "k" then (p.2, kv.2)
    else if p.1 = "v" then (kv.1, p.2)
    else kv) ("", "")

/-- get_tag: make sure a TagListBuilder is open and append the pair. -/
def addTag (tl : Option (List (String × String))) (attrs : List (String × String)) :
    Option (List (String × String)) :=
  some ((tl.getD []) ++ [tagKV attrs])

/-- Destruction of the TagListBuilder (m_tl_builder.reset()) seals the tag
list it wrote into the entity it was created under. -/
def sealTl (tl : Option (List (String × String))) (subs : List SubItem) : List SubItem :=
  match tl with
  | none => subs
  | some tags => subs ++ [.tagList tags]

/-- Destruction of the WayNodeListBuilder seals the node-ref list. -/
def sealWnl (wnl : Option (List Int)) (subs : List SubItem) : List SubItem :=
  match wnl with
  | none => subs
  | some refs => subs ++ [.wayNodeList refs]

/-- Destruction of the RelationMemberListBuilder seals the member list. -/
def sealRml (rml : Option (List MemberData)) (subs : List SubItem) : List SubItem :=
  match rml with
  | none => subs
  | some ms => subs ++ [.memberList ms]

/-- Destruction of the ChangesetDiscussionBuilder seals the discussion. -/
def sealDisc (disc : Option (List CommentData)) (subs : List SubItem) : List SubItem :=
  match disc with
  | none => subs
  | some cs => subs ++ [.discussion cs]

/-- start_element in context::node: any start tag stores the context in the
one-slot last-context register and enters in_object; a tag element is
additionally appended through get_tag. -/
def startNodeCtx (s : MachineState) (el : String) (attrs : List (String × String)) :
    Except ParseError MachineState :=
  if el = "tag" then
    .ok { s with lastContext := .node, context := .inObject, tlB := addTag s.tlB attrs }
  else .ok { s with lastContext := .node, context := .inObject }

/-- The node refs appended by the check_attributes lambda of the nd
branch. -/
def ndRefs (attrs : List (String × String)) (refs : List Int) : List Int :=
  attrs.foldl (fun rs p => if p.1 = "ref" then rs ++ [parseId p.2] else rs) refs

/-- start_element in context::way: last-context register and in_object as
for nodes; nd first discards the tag-list builder and ensures the
way-node-list builder, tag first discards the way-node-list builder. -/
def startWayCtx (s : MachineState) (el : String) (attrs : List (String × String)) :
    Except ParseError MachineState :=
  if el = "nd" then
    .ok { s with lastContext := .way, context := .inObject, tlB := none,
                 wayB := s.wayB.map (fun (b : EntBuild) => { b with subs := sealTl s.tlB b.subs }),
                 wnlB := some (ndRefs attrs (s.wnlB.getD [])) }
  else if el = "tag" then
    .ok { s with lastContext := .way, context := .inObject, wnlB := none,
                 wayB := s.wayB.map (fun (b : EntBuild) => { b with subs := sealWnl s.wnlB b.subs }),
                 tlB := addTag s.tlB attrs }
  else .ok { s with lastContext := .way, context := .inObject }

/-- The member triple read by the check_attributes lambda of the member
branch: the first character of type is mapped to an item type, ref is
parsed as an id, role is kept. -/
def memberAttrs (attrs : List (String × String)) : ItemType × Int × String :=
  attrs.foldl (fun acc p =>
    if p.1 = "type" then (firstCharItemType p.2, acc.2.1, acc.2.2)
    else if p.1 = "ref" then (acc.1, parseId p.2, acc.2.2)
    else if p.1 = "role" then (acc.1, acc.2.1, p.2)
    else acc) (ItemType.undefined, 0, "")

/-- start_element in context::relation: member discards the tag-list
builder, ensures the member-list builder, reads the attributes, fails on a
type that is not node/way/relation, then on a zero ref, and otherwise
appends the member; tag discards the member-list builder. -/
def startRelationCtx (s : MachineState) (el : String) (attrs : List (String × String)) :
    Except ParseError MachineState :=
  if el = "member" then
    if ¬ ((memberAttrs attrs).1 = ItemType.node ∨ (memberAttrs attrs).1 = ItemType.way ∨
          (memberAttrs attrs).1 = ItemType.relation) then
      .error .unknownMemberType
    else if (memberAttrs attrs).2.1 = 0 then .error .missingRef
    else
      .ok { s with lastContext := .relation, context := .inObject, tlB := none,
                   relB := s.relB.map (fun (b : EntBuild) => { b with subs := sealTl s.tlB b.subs }),
                   rmlB := some ((s.rmlB.getD []) ++
                     [MemberData.mk (memberAttrs attrs).1 (memberAttrs attrs).2.1
                       (memberAttrs attrs).2.2]) }
  else if el = "tag" then
    .ok { s with lastContext := .relation, context := .inObject, rmlB := none,
                 relB := s.relB.map (fun (b : EntBuild) => { b with subs := sealRml s.rmlB b.subs }),
                 tlB := addTag s.tlB attrs }
  else .ok { s with lastContext := .relation, context := .inObject }

/-- start_element in context::changeset: discussion moves to the discussion
context, discards the tag-list builder and ensures the discussion builder;
tag moves to in_object and discards the discussion builder; any other
element only stores the last context and stays in the changeset context
(there is no in_object transition in this branch of the source). -/
def startChangesetCtx (s : MachineState) (el : String) (attrs : List (String × String)) :
    Except ParseError MachineState :=
  if el = "discussion" then
    .ok { s with lastContext := .changeset, context := .discussion, tlB := none,
                 csB := s.csB.map (fun (b : CsBuild) => { b with subs := sealTl s.tlB b.subs }),
                 discB := some (s.discB.getD []) }
  else if el = "tag" then
    .ok { s with lastContext := .changeset, context := .inObject, discB := none,
                 csB := s.csB.map (fun (b : CsBuild) => { b with subs := sealDisc s.discB b.subs }),
                 tlB := addTag s.tlB attrs }
  else .ok { s with lastContext := .changeset }

/-- The comment attribute triple (date, uid, user); date and uid are parsed
by external code in the source, the raw strings are retained here. -/
def commentAttrs (attrs : List (String × String)) : String × String × String :=
  attrs.foldl (fun acc p =>
    if p.1 = "date" then (p.2, acc.2.1, acc.2.2)
    else if p.1 = "uid" then (acc.1, p.2, acc.2.2)
    else if p.1 = "role" then acc
    else if p.1 = "user" then (acc.1, acc.2.1, p.2)
    else acc) ("", "", "")

/-- start_element in context::discussion: a comment element appends a
comment through the discussion builder (a dereference of an absent builder
is the internal error) and moves to the comment context; anything else is
ignored. -/
def startDiscussionCtx (s : MachineState) (el : String) (attrs : List (String × String)) :
    Except ParseError MachineState :=
  if el = "comment" then
    match s.discB with
    | none => .error .internal
    | some cs =>
      let t := commentAttrs attrs
      .ok { s with context := .comment,
                   discB := some (cs ++ [{ date := t.1, uid := t.2.1, user := t.2.2 }]) }
  else .ok s

/-- XMLParser::start_element: dispatch on the context.  In in_object the
source asserts false (start events must not arrive there); the assert is
modelled as the assertion-failure error. -/
def startElement (s : MachineState) (el : String) (attrs : List (String × String)) :
    Except ParseError MachineState :=
  match s.context with
  | .root => startRoot s el attrs
  | .top => startTop s el attrs
  | .node => startNodeCtx s el attrs
  | .way => startWayCtx s el attrs
  | .relation => startRelationCtx s el attrs
  | .changeset => startChangesetCtx s el attrs
  | .discussion => startDiscussionCtx s el attrs
  | .comment => .ok (if el = "text" then { s with context := .commentText } else s)
  | .commentText => .ok s
  | .ignoredNode => .ok s
  | .ignoredWay => .ok s
  | .ignoredRelation => .ok s
  | .ignoredChangeset => .ok s
  | .inObject => .error .assertionFailure

/-- Set the body of the last comment in a discussion
(ChangesetDiscussionBuilder::add_comment_text writes the text of the
comment appended last). -/
def setLastBody : List CommentData → String → List CommentData
  | [], _ => []
  | [c], b => [{ c with body := b }]
  | c :: cs, b => c :: setLastBody cs b

/-- XMLParser::end_element.  The asserts on the element name are modelled
as assertion-failure errors; entity ends seal the open sub-list builders,
close the entity builder, commit the entity into the buffer, return to the
top context and run the flush check. -/
def endElement (sz : Entity → Nat) (s : MachineState) (el : String) :
    Except ParseError MachineState :=
  match s.context with
  | .root => .error .assertionFailure
  | .top =>
    if el = "osm" ∨ el = "osmChange" then
      .ok { headerIsDone s with context := .root }
    else if el = "delete" then .ok { s with inDeleteSection := false }
    else .ok s
  | .node =>
    if el = "node" then
      match s.nodeB with
      | none => .ok { s with tlB := none, context := .top }
      | some b =>
        let e := Entity.node b.obj (sealTl s.tlB b.subs)
        .ok (flushBuffer sz { s with tlB := none, nodeB := none, context := .top,
                                     buffer := s.buffer ++ [e] })
    else .error .assertionFailure
  | .way =>
    if el = "way" then
      match s.wayB with
      | none => .ok { s with tlB := none, wnlB := none, context := .top }
      | some b =>
        let e := Entity.way b.obj (sealWnl s.wnlB (sealTl s.tlB b.subs))
        .ok (flushBuffer sz { s with tlB := none, wnlB := none, wayB := none, context := .top,
                                     buffer := s.buffer ++ [e] })
    else .error .assertionFailure
  | .relation =>
    if el = "relation" then
      match s.relB with
      | none => .ok { s with tlB := none, rmlB := none, context := .top }
      | some b =>
        let e := Entity.relation b.obj (sealRml s.rmlB (sealTl s.tlB b.subs))
        .ok (flushBuffer sz { s with tlB := none, rmlB := none, relB := none, context := .top,
                                     buffer := s.buffer ++ [e] })
    else .error .assertionFailure
  | .changeset =>
    if el = "changeset" then
      match s.csB with
      | none => .ok { s with tlB := none, discB := none, context := .top }
      | some b =>
        let e := Entity.changeset b.cs (sealDisc s.discB (sealTl s.tlB b.subs))
        .ok (flushBuffer sz { s with tlB := none, discB := none, csB := none, context := .top,
                                     buffer := s.buffer ++ [e] })
    else .error .assertionFailure
  | .discussion =>
    if el = "discussion" then .ok { s with context := .changeset }
    else .error .assertionFailure
  | .comment =>
    if el = "comment" then .ok { s with context := .discussion }
    else .error .assertionFailure
  | .commentText =>
    if el = "text" then
      match s.discB with
      | none => .error .internal
      | some cs => .ok { s with context := .comment, discB := some (setLastBody cs s.commentText) }
    else .error .assertionFailure
  | .inObject => .ok { s with context := s.lastContext }
  | .ignoredNode =>
    if el = "node" then .ok { s with context := .top } else .ok s
  | .ignoredWay =>
    if el = "way" then .ok { s with context := .top } else .ok s
  | .ignoredRelation =>
    if el = "relation" then .ok { s with context := .top } else .ok s
  | .ignoredChangeset =>
    if el = "changeset" then .ok { s with context := .top } else .ok s

/-- XMLParser::characters: character data is appended to the scratch string
in the comment-text context and the scratch is cleared by character data
arriving in any other context. -/
def charactersEv (s : MachineState) (text : String) : MachineState :=
  if s.context = .commentText then { s with commentText := s.commentText ++ text }
  else { s with commentText := "" }

/-- One Expat callback. -/
def step (sz : Entity → Nat) (s : MachineState) (e : XmlEvent) :
    Except ParseError MachineState :=
  match e with
  | .startEl el attrs => startElement s el attrs
  | .endEl el => endElement sz s el
  | .chars t => .ok (charactersEv s t)

/-- Feed a list of events to the machine; a thrown error stops the run and
is reported together with the state before the failing event (the buffer
is rolled back past the uncommitted entity by the exception unwinding, so
the committed contents of the pre-event state are what remains
observable). -/
def runEvents (sz : Entity → Nat) : MachineState → List XmlEvent →
    MachineState × Option ParseError
  | s, [] => (s, none)
  | s, e :: es =>
    match step sz s e with
    | .ok s' => runEvents sz s' es
    | .error err => (s, some err)

/-- The tail of XMLParser::run after the input loop: resolve the header
promise if still pending and send the remaining buffer to the output queue
exactly when its committed byte count is positive. -/
def finishRun (sz : Entity → Nat) (s : MachineState) : MachineState :=
  if 0 < committedBytes sz (headerIsDone s) then
    { headerIsDone s with outputs := (headerIsDone s).outputs ++ [(headerIsDone s).buffer],
                          buffer := [] }
  else headerIsDone s

/-- One input chunk: none is the empty chunk that signals end-of-stream,
some evs is a data chunk together with the XML events Expat produces for
it. -/
def Chunk := Option (List XmlEvent)

/-- The loop of XMLParser::run over the input queue: pop a chunk, feed it
to the XML driver, and afterwards break out early when the mask is empty
and the header promise has been resolved.  The result carries the final
state, the number of chunks consumed, and the error if one unwound out of
the driver (in which case the post-loop code does not run). -/
def runLoop (sz : Entity → Nat) : MachineState → List Chunk →
    MachineState × Nat × Option ParseError
  | s, [] => (s, 0, none)
  | s, none :: _ => (finishRun sz s, 1, none)
  | s, some evs :: rest =>
    match runEvents sz s evs with
    | (s', some err) => (s', 1, some err)
    | (s', none) =>
      if s'.mask = Mask.nothing ∧ s'.headerDone = true then (finishRun sz s', 1, none)
      else
        let r := runLoop sz s' rest
        (r.1, r.2.1 + 1, r.2.2)

/-- All entities a consumer can ever observe from a state: the buffers
already moved to the output queue followed by the committed contents of the
current buffer. -/
def emitted (s : MachineState) : List Entity :=
  s.outputs.flatten ++ s.buffer

/-- A size function for concrete evaluations; the flush threshold is never
reached under it. -/
def szZero : Entity → Nat := fun _ => 0

/-! Small facts about headerIsDone and flushBuffer used throughout: neither
touches the fields the state machine branches on. -/

theorem headerIsDone_of_done {s : MachineState} (h : s.headerDone = true) :
    headerIsDone s = s := by
  unfold headerIsDone
  simp [h]

@[simp] theorem headerIsDone_headerDone (s : MachineState) :
    (headerIsDone s).headerDone = true := by
  unfold headerIsDone
  split <;> simp_all

@[simp] theorem headerIsDone_context (s : MachineState) :
    (headerIsDone s).context = s.context := by
  unfold headerIsDone
  split <;> rfl

@[simp] theorem headerIsDone_mask (s : MachineState) :
    (headerIsDone s).mask = s.mask := by
  unfold headerIsDone
  split <;> rfl

@[simp] theorem headerIsDone_header (s : MachineState) :
    (headerIsDone s).header = s.header := by
  unfold headerIsDone
  split <;> rfl

@[simp] theorem headerIsDone_buffer (s : MachineState) :
    (headerIsDone s).buffer = s.buffer := by
  unfold headerIsDone
  split <;> rfl

@[simp] theorem headerIsDone_outputs (s : MachineState) :
    (headerIsDone s).outputs = s.outputs := by
  unfold headerIsDone
  split <;> rfl

@[simp] theorem headerIsDone_tlB (s : MachineState) :
    (headerIsDone s).tlB = s.tlB := by
  unfold headerIsDone
  split <;> rfl

@[simp] theorem headerIsDone_wnlB (s : MachineState) :
    (headerIsDone s).wnlB = s.wnlB := by
  unfold headerIsDone
  split <;> rfl

@[simp] theorem headerIsDone_rmlB (s : MachineState) :
    (headerIsDone s).rmlB = s.rmlB := by
  unfold headerIsDone
  split <;> rfl

@[simp] theorem headerIsDone_discB (s : MachineState) :
    (headerIsDone s).discB = s.discB := by
  unfold headerIsDone
  split <;> rfl

@[simp] theorem headerIsDone_lastContext (s : MachineState) :
    (headerIsDone s).lastContext = s.lastContext := by
  unfold headerIsDone
  split <;> rfl

@[simp] theorem headerIsDone_inDeleteSection (s : MachineState) :
    (headerIsDone s).inDeleteSection = s.inDeleteSection := by
  unfold headerIsDone
  split <;> rfl

@[simp] theorem headerIsDone_rootCount (s : MachineState) :
    (headerIsDone s).rootCount = s.rootCount := by
  unfold headerIsDone
  split <;> rfl

@[simp] theorem headerIsDone_sawOsmChange (s : MachineState) :
    (headerIsDone s).sawOsmChange = s.sawOsmChange := by
  unfold headerIsDone
  split <;> rfl

@[simp] theorem flushBuffer_context (sz : Entity → Nat) (s : MachineState) :
    (flushBuffer sz s).context = s.context := by
  unfold flushBuffer
  split <;> rfl

@[simp] theorem flushBuffer_lastContext (sz : Entity → Nat) (s : MachineState) :
    (flushBuffer sz s).lastContext = s.lastContext := by
  unfold flushBuffer
  split <;> rfl

@[simp] theorem flushBuffer_headerDone (sz : Entity → Nat) (s : MachineState) :
    (flushBuffer sz s).headerDone = s.headerDone := by
  unfold flushBuffer
  split <;> rfl

@[simp] theorem flushBuffer_resolvedHeader (sz : Entity → Nat) (s : MachineState) :
    (flushBuffer sz s).resolvedHeader = s.resolvedHeader := by
  unfold flushBuffer
  split <;> rfl

@[simp] theorem flushBuffer_header (sz : Entity → Nat) (s : MachineState) :
    (flushBuffer sz s).header = s.header := by
  unfold flushBuffer
  split <;> rfl

@[simp] theorem flushBuffer_inDeleteSection (sz : Entity → Nat) (s : MachineState) :
    (flushBuffer sz s).inDeleteSection = s.inDeleteSection := by
  unfold flushBuffer
  split <;> rfl

@[simp] theorem flushBuffer_tlB (sz : Entity → Nat) (s : MachineState) :
    (flushBuffer sz s).tlB = s.tlB := by
  unfold flushBuffer
  split <;> rfl

@[simp] theorem flushBuffer_wnlB (sz : Entity → Nat) (s : MachineState) :
    (flushBuffer sz s).wnlB = s.wnlB := by
  unfold flushBuffer
  split <;> rfl

@[simp] theorem flushBuffer_rmlB (sz : Entity → Nat) (s : MachineState) :
    (flushBuffer sz s).rmlB = s.rmlB := by
  unfold flushBuffer
  split <;> rfl

@[simp] theorem flushBuffer_discB (sz : Entity → Nat) (s : MachineState) :
    (flushBuffer sz s).discB = s.discB := by
  unfold flushBuffer
  split <;> rfl

@[simp] theorem flushBuffer_rootCount (sz : Entity → Nat) (s : MachineState) :
    (flushBuffer sz s).rootCount = s.rootCount := by
  unfold flushBuffer
  split <;> rfl

@[simp] theorem flushBuffer_sawOsmChange (sz : Entity → Nat) (s : MachineState) :
    (flushBuffer sz s).sawOsmChange = s.sawOsmChange := by
  unfold flushBuffer
  split <;> rfl

theorem append_singleton_ne {α : Type} (l : List α) (x : α) : l ++ [x] ≠ l := by
  intro h
  have h2 := congrArg List.length h
  simp at h2

/-! The NodeRef data type of osm/node_ref.hpp and its comparison
operators. -/

/-- A fixed-point location as cached inside a NodeRef (osmium::Location);
the comparison operators of NodeRef never look at it, so only its identity
matters here. -/
structure Location where
  x : Int := 0
  y : Int := 0
deriving DecidableEq, Repr

/-- osmium::NodeRef: a node id with a possibly empty cached location; the
defaults mirror the constructor NodeRef(ref=0, location=Location()). -/
structure NodeRef where
  ref : Int := 0
  location : Location := {}
deriving DecidableEq, Repr

/-- operator== on NodeRef: lhs.ref() == rhs.ref(). -/
def NodeRef.eqOp (a b : NodeRef) : Bool := a.ref = b.ref

/-- operator!= on NodeRef: negation of operator==. -/
def NodeRef.neOp (a b : NodeRef) : Bool := ! NodeRef.eqOp a b

/-- operator< on NodeRef: lhs.ref() < rhs.ref(). -/
def NodeRef.ltOp (a b : NodeRef) : Bool := a.ref < b.ref

/-- operator> on NodeRef: rhs < lhs. -/
def NodeRef.gtOp (a b : NodeRef) : Bool := NodeRef.ltOp b a

/-- operator<= on NodeRef: negation of rhs < lhs. -/
def NodeRef.leOp (a b : NodeRef) : Bool := ! NodeRef.ltOp b a

/-- operator>= on NodeRef: negation of lhs < rhs. -/
def NodeRef.geOp (a b : NodeRef) : Bool := ! NodeRef.ltOp a b

/-- C10: NodeRef equality and ordering compare only the node id and ignore
the cached Location: equality holds iff the refs are equal and the order
holds iff the refs are ordered, so two NodeRefs with equal ref and
different locations compare equal; the derived operators are definable
from the two primitives exactly as in the source, and the order is total
on the ref field. -/
theorem nodeRef_comparisons (a b : NodeRef) :
    (NodeRef.eqOp a b = true ↔ a.ref = b.ref)
  ∧ (NodeRef.ltOp a b = true ↔ a.ref < b.ref)
  ∧ (a.ref = b.ref → a.location ≠ b.location → NodeRef.eqOp a b = true)
  ∧ NodeRef.neOp a b = ! NodeRef.eqOp a b
  ∧ NodeRef.gtOp a b = NodeRef.ltOp b a
  ∧ NodeRef.leOp a b = ! NodeRef.ltOp b a
  ∧ NodeRef.geOp a b = ! NodeRef.ltOp a b
  ∧ (NodeRef.ltOp a b = true ∨ NodeRef.eqOp a b = true ∨ NodeRef.ltOp b a = true) := by
  refine ⟨by simp [NodeRef.eqOp], by simp [NodeRef.ltOp], fun h _ => by simp [NodeRef.eqOp, h],
    rfl, rfl, rfl, rfl, ?_⟩
  rcases lt_trichotomy a.ref b.ref with h | h | h
  · exact Or.inl (by simp [NodeRef.ltOp, h])
  · exact Or.inr (Or.inl (by simp [NodeRef.eqOp, h]))
  · exact Or.inr (Or.inr (by simp [NodeRef.ltOp, h]))

/-- Witness for C10 at a concrete pair with equal refs and different
locations. -/
theorem nodeRef_comparisons_witness :
    NodeRef.eqOp { ref := 5, location := { x := 1, y := 2 } }
      { ref := 5, location := { x := 3, y := 4 } } = true :=
  (nodeRef_comparisons { ref := 5, location := { x := 1, y := 2 } }
    { ref := 5, location := { x := 3, y := 4 } }).2.2.1 rfl (by decide)

/-! Claim C8: buffer hand-off at the flush watermark and at
end-of-stream. -/

/-- Claim C8 as stated: after an entity commit the buffer is moved to the
output channel exactly when the committed byte count reaches (that is, is
at least) 90 percent of the capacity. -/
def flushWhenWatermarkReached : Prop :=
  ∀ (sz : Entity → Nat) (s : MachineState),
    ((flushBuffer sz s).outputs ≠ s.outputs ↔ bufferSize / 10 * 9 ≤ committedBytes sz s)

/-- An arbitrary committed entity used for concrete buffer states. -/
def dummyEntity : Entity := .node {} []

/-- A machine state holding one committed entity. -/
def oneEntityState : MachineState := { initState Mask.all with buffer := [dummyEntity] }

/-- A size function under which the single committed entity occupies
exactly 90 percent of the buffer capacity. -/
def szWatermark : Entity → Nat := fun _ => bufferSize / 10 * 9

/-- Counterexample to C8 as stated: with a committed byte count of exactly
90 percent of the capacity (1800000 of 2000000 bytes) the source condition
committed() > buffer_size / 10 * 9 is false and the buffer is not moved,
although the watermark has been reached. -/
theorem flushWhenWatermarkReached_false : ¬ flushWhenWatermarkReached := by
  intro h
  have h2 := (h szWatermark oneEntityState).2 (by decide)
  exact h2 (by decide)

/-- C8 amended: the buffer is moved to the output channel and replaced by a
fresh empty buffer of the same capacity exactly when the committed byte
count strictly exceeds 90 percent of the capacity; and the end-of-stream
code resolves the header promise and sends the remaining buffer if and
only if its committed byte count is positive. -/
theorem buffer_handoff (sz : Entity → Nat) (s : MachineState) :
    ((flushBuffer sz s).outputs ≠ s.outputs ↔ bufferSize / 10 * 9 < committedBytes sz s)
  ∧ (bufferSize / 10 * 9 < committedBytes sz s →
      (flushBuffer sz s).outputs = s.outputs ++ [s.buffer] ∧ (flushBuffer sz s).buffer = [])
  ∧ (finishRun sz s).headerDone = true
  ∧ (0 < committedBytes sz s → (finishRun sz s).outputs = s.outputs ++ [s.buffer])
  ∧ (committedBytes sz s = 0 →
      (finishRun sz s).outputs = s.outputs ∧ (finishRun sz s).buffer = s.buffer) := by
  have hcb : committedBytes sz (headerIsDone s) = committedBytes sz s := by
    unfold committedBytes
    rw [headerIsDone_buffer]
  refine ⟨?_, ?_, ?_, ?_, ?_⟩
  · unfold flushBuffer
    split
    · next hlt => simpa [append_singleton_ne] using hlt
    · next hlt => simpa using hlt
  · intro hlt
    unfold flushBuffer
    simp [hlt]
  · unfold finishRun
    split <;> simp
  · intro hpos
    unfold finishRun
    rw [hcb]
    simp [hpos]
  · intro hz
    unfold finishRun
    rw [hcb, hz]
    simp

/-- Witness for C8 at a size function that overfills the buffer with one
entity: the buffer is handed off and replaced by an empty one. -/
theorem buffer_handoff_witness :
    (flushBuffer (fun _ => bufferSize) oneEntityState).outputs =
      oneEntityState.outputs ++ [oneEntityState.buffer] ∧
    (flushBuffer (fun _ => bufferSize) oneEntityState).buffer = [] :=
  (buffer_handoff (fun _ => bufferSize) oneEntityState).2.1 (by decide)

/-! Claim C9: early exit of the run loop when the mask is empty and the
header promise has been resolved. -/

/-- C9: whenever the bottom-of-loop check in XMLParser::run sees an empty
entity mask and a resolved header promise, the loop is left and the task
returns after the post-loop code, consuming no chunk beyond the current
one, whatever input would have followed. -/
theorem runLoop_early_exit (sz : Entity → Nat) (s s' : MachineState)
    (evs : List XmlEvent) (rest : List Chunk)
    (h : runEvents sz s evs = (s', none))
    (hm : s'.mask = Mask.nothing) (hd : s'.headerDone = true) :
    runLoop sz s (some evs :: rest) = (finishRun sz s', 1, none) := by
  unfold runLoop
  rw [h]
  simp [hm, hd]

/-- The event list of a minimal header-only document. -/
def headerOnlyEvents : List XmlEvent :=
  [.startEl "osm" [("version", "0.6")], .endEl "osm"]

/-- The machine state after the header-only document under the empty
mask. -/
def headerOnlyState : MachineState :=
  (runEvents szZero (initState Mask.nothing) headerOnlyEvents).1

/-- Witness for C9: with the empty mask, after the chunk containing the
whole header-only document, the loop consumes exactly one chunk even
though two more (one of them data) are queued. -/
theorem runLoop_early_exit_witness :
    runLoop szZero (initState Mask.nothing)
        (some headerOnlyEvents :: [some [.chars "x"], none]) =
      (finishRun szZero headerOnlyState, 1, none) :=
  runLoop_early_exit szZero (initState Mask.nothing) headerOnlyState headerOnlyEvents
    [some [.chars "x"], none] (by decide) (by decide) (by decide)

/-! Claim C6: the one-slot last-context register and the in_object
assertion. -/

/-- Event list of a well-formed document in which an unrecognized child of
a node element itself contains a child element. -/
def nestedUnknownEvents : List XmlEvent :=
  [.startEl "osm" [("version", "0.6")], .startEl "node" [("id", "1")],
   .startEl "a" [], .startEl "b" []]

/-- C6 failing input: after start node and start a, the machine is in
in_object; the start tag of b is then delivered in in_object and the
assert(false) of the in_object case of start_element fires.  The claim
says unknown elements with children are skipped without error and the
assertion never fires; the code contradicts its own assertion. -/
theorem inObject_assertion_fires :
    (runEvents szZero (initState Mask.all) nestedUnknownEvents).2 =
      some ParseError.assertionFailure := by
  decide

/-! Claim C7: comment bodies and the scratch string. -/

/-- All comment bodies of all discussions of all emitted entities, in
order. -/
def commentBodies (s : MachineState) : List String :=
  (emitted s).flatMap (fun e =>
    e.subs.flatMap (fun si =>
      match si with
      | .discussion cs => cs.map (fun c => c.body)
      | _ => []))

/-- Event list of a changeset with two comments whose text elements are
adjacent (no character data arrives between the first end text and the
second start text, as in compact XML without whitespace between tags). -/
def twoCommentEvents : List XmlEvent :=
  [.startEl "osm" [("version", "0.6")],
   .startEl "changeset" [("id", "1")],
   .startEl "discussion" [],
   .startEl "comment" [("uid", "1"), ("user", "a")],
   .startEl "text" [], .chars "hi", .endEl "text",
   .endEl "comment",
   .startEl "comment" [("uid", "2"), ("user", "b")],
   .startEl "text" [], .chars "yo", .endEl "text",
   .endEl "comment",
   .endEl "discussion", .endEl "changeset", .endEl "osm"]

/-- C7 failing input: end_element for text attaches the scratch to the
current comment but never resets the scratch (the only reset is in
characters() for data arriving outside comment_text), so the second
comment body is the concatenation "hiyo" instead of "yo".  The claim
(body equals exactly the character data of the comment's own text
element) describes the evident intent; the code drops the reset. -/
theorem comment_text_scratch_not_reset :
    (runEvents szZero (initState Mask.all) twoCommentEvents).2 = none ∧
    commentBodies (runEvents szZero (initState Mask.all) twoCommentEvents).1 =
      ["hi", "hiyo"] := by
  constructor
  · decide
  · decide

/-! Claim C5: sub-list builders. -/

/-- Claim C5 (second half) as stated: within one emitted entity each
nested list kind appears at most once. -/
def nestedListsAppearAtMostOnce : Prop :=
  ∀ (sz : Entity → Nat) (m : Mask) (evs : List XmlEvent) (e : Entity),
    e ∈ emitted (runEvents sz (initState m) evs).1 →
    ∀ k : SubKind, ((Entity.subs e).filter (fun si => si.kind = k)).length ≤ 1

/-- Event list of a way whose nd elements are interrupted by a tag
element. -/
def interleavedWayEvents : List XmlEvent :=
  [.startEl "osm" [("version", "0.6")],
   .startEl "way" [("id", "1")],
   .startEl "nd" [("ref", "10")], .endEl "nd",
   .startEl "tag" [("k", "highway"), ("v", "road")], .endEl "tag",
   .startEl "nd" [("ref", "11")], .endEl "nd",
   .endEl "way", .endEl "osm"]

/-- The way emitted for interleavedWayEvents: its node refs land in two
separate way-node lists because the second nd element re-creates the
WayNodeListBuilder after the tag element discarded it. -/
def interleavedWay : Entity :=
  .way { attrs := [("id", "1")] }
    [.wayNodeList [10], .tagList [("highway", "road")], .wayNodeList [11]]

/-- Counterexample to C5 as stated: the way of interleavedWayEvents is
emitted with two way-node lists, so an earlier list kind is reopened after
a subsequent list kind was opened. -/
theorem nestedListsAppearAtMostOnce_false : ¬ nestedListsAppearAtMostOnce := by
  intro h
  have h2 := h szZero Mask.all interleavedWayEvents interleavedWay (by decide)
    SubKind.nodeRefs
  exact absurd h2 (by decide)

/-! Claim C1: the delete-section flag and visibility. -/

/-- Claim C1 (flag clearing) as stated: in state Top a start tag create
clears the in-delete flag. -/
def createClearsDeleteFlag : Prop :=
  ∀ (s s' : MachineState) (attrs : List (String × String)),
    s.context = .top → startElement s "create" attrs = .ok s' →
    s'.inDeleteSection = false

/-- The state reached inside an open delete section of an osmChange
document. -/
def openDeleteState : MachineState :=
  (runEvents szZero (initState Mask.all)
    [.startEl "osmChange" [("version", "0.6")], .startEl "delete" []]).1

/-- Counterexample to C1 as stated: in the top state with the delete flag
set, the start tag of create falls off the if-chain of the context::top
case and leaves the flag set (the source clears it only on the end tag of
delete). -/
theorem createClearsDeleteFlag_false : ¬ createClearsDeleteFlag := by
  intro h
  have h2 := h openDeleteState openDeleteState [] (by decide) (by decide)
  exact absurd h2 (by decide)

/-! Claim C2: root version checking. -/

theorem find?_filter_ne (l : List (String × String)) (k k' : String) (hne : ¬ (k' = k)) :
    (l.filter (fun p => ¬ (p.1 = k'))).find? (fun p => p.1 = k) =
      l.find? (fun p => p.1 = k) := by
  induction l with
  | nil => rfl
  | cons p rest ih =>
    by_cases hp : p.1 = k'
    · have hpk : ¬ (p.1 = k) := by rw [hp]; exact hne
      rw [List.filter_cons_of_neg (by simp [hp]), List.find?_cons_of_neg _ (by simp [hpk])]
      exact ih
    · rw [List.filter_cons_of_pos (by simp [hp])]
      by_cases hpk : p.1 = k
      · rw [List.find?_cons_of_pos _ (by simp [hpk]), List.find?_cons_of_pos _ (by simp [hpk])]
      · rw [List.find?_cons_of_neg _ (by simp [hpk]), List.find?_cons_of_neg _ (by simp [hpk])]
        exact ih

theorem HeaderData.get_set_ne (h : HeaderData) (k k' v : String) (hne : ¬ (k' = k)) :
    (h.set k' v).get k = h.get k := by
  unfold HeaderData.set HeaderData.get
  rw [List.find?_append, find?_filter_ne h.kv k k' hne]
  have h2 : List.find? (fun p => decide (p.1 = k)) [(k', v)] = none := by
    simp [List.find?, hne]
  rw [h2]
  simp

/-- The attribute fold of the root element throws format_version_error with
the offending value as soon as it meets a version attribute whose value is
not 0.6; the first version attribute in document order decides. -/
theorem rootAttrs_error (attrs : List (String × String)) :
    ∀ (h0 : HeaderData) (v : String),
      (attrs.find? (fun p => p.1 = "version")).map (fun p => p.2) = some v →
      ¬ (v = "0.6") →
      attrs.foldlM rootAttrStep h0 = .error (.formatVersion (some v)) := by
  induction attrs with
  | nil => intro h0 v hv _; simp at hv
  | cons p rest ih =>
    intro h0 v hv hne
    rw [List.foldlM_cons]
    by_cases hp : p.1 = "version"
    · rw [List.find?_cons_of_pos _ (by simp [hp])] at hv
      simp at hv
      subst hv
      unfold rootAttrStep
      rw [if_pos hp, if_neg hne]
      rfl
    · rw [List.find?_cons_of_neg _ (by simp [hp])] at hv
      unfold rootAttrStep
      rw [if_neg hp]
      by_cases hg : p.1 = "generator"
      · rw [if_pos hg]
        exact ih (h0.set "generator" p.2) v hv hne
      · rw [if_neg hg]
        exact ih h0 v hv hne

/-- With no version attribute present, the attribute fold of the root
element succeeds and leaves the stored version value unchanged. -/
theorem rootAttrs_ok (attrs : List (String × String)) :
    ∀ h0 : HeaderData, attrs.find? (fun p => p.1 = "version") = none →
      ∃ h, attrs.foldlM rootAttrStep h0 = .ok h ∧ h.get "version" = h0.get "version" := by
  induction attrs with
  | nil => intro h0 _; exact ⟨h0, rfl, rfl⟩
  | cons p rest ih =>
    intro h0 hf
    have hp : ¬ (p.1 = "version") := by
      intro hp
      rw [List.find?_cons_of_pos _ (by simp [hp])] at hf
      simp at hf
    rw [List.find?_cons_of_neg _ (by simp [hp])] at hf
    rw [List.foldlM_cons]
    unfold rootAttrStep
    rw [if_neg hp]
    by_cases hg : p.1 = "generator"
    · rw [if_pos hg]
      obtain ⟨h, hfold, hget⟩ := ih (h0.set "generator" p.2) hf
      refine ⟨h, ?_, ?_⟩
      · show rest.foldlM rootAttrStep (h0.set "generator" p.2) = .ok h
        exact hfold
      · rw [hget]
        exact HeaderData.get_set_ne h0 "version" "generator" p.2 (by decide)
    · rw [if_neg hg]
      obtain ⟨h, hfold, hget⟩ := ih h0 hf
      exact ⟨h, hfold, hget⟩

/-- C2: when the root element is osm or osmChange, a version attribute
whose (first) value differs from 0.6 makes the whole run fail with a
FormatVersion error carrying that value, and an absent version attribute
makes it fail with a FormatVersion error carrying no value; in either case
the failure happens on the very first event and no entities are
emitted. -/
theorem root_version_check (sz : Entity → Nat) (m : Mask) (root : String)
    (attrs : List (String × String)) (rest : List XmlEvent)
    (hr : root = "osm" ∨ root = "osmChange") :
    (∀ v, (attrs.find? (fun p => p.1 = "version")).map (fun p => p.2) = some v →
       ¬ (v = "0.6") →
       runEvents sz (initState m) (.startEl root attrs :: rest) =
         (initState m, some (.formatVersion (some v))) ∧
       emitted (runEvents sz (initState m) (.startEl root attrs :: rest)).1 = [])
  ∧ ((attrs.find? (fun p => p.1 = "version")) = none →
       runEvents sz (initState m) (.startEl root attrs :: rest) =
         (initState m, some (.formatVersion none)) ∧
       emitted (runEvents sz (initState m) (.startEl root attrs :: rest)).1 = []) := by
  constructor
  · intro v hv hne
    have hstep : step sz (initState m) (.startEl root attrs) =
        .error (.formatVersion (some v)) := by
      show startRoot (initState m) root attrs = .error (.formatVersion (some v))
      unfold startRoot
      rw [if_pos hr]
      rw [rootAttrs_error attrs _ v hv hne]
    have hrun : runEvents sz (initState m) (.startEl root attrs :: rest) =
        (initState m, some (.formatVersion (some v))) := by
      unfold runEvents
      rw [hstep]
    exact ⟨hrun, by rw [hrun]; rfl⟩
  · intro hf
    obtain ⟨h, hfold, hgv⟩ := rootAttrs_ok attrs
      (if root = "osmChange" then
        { (initState m).header with hasMultipleObjectVersions := true }
       else (initState m).header) hf
    have hgv0 : h.get "version" = "" := by
      rw [hgv]
      split <;> rfl
    have hstep : step sz (initState m) (.startEl root attrs) =
        .error (.formatVersion none) := by
      show startRoot (initState m) root attrs = .error (.formatVersion none)
      unfold startRoot
      rw [if_pos hr, hfold]
      simp [hgv0]
    have hrun : runEvents sz (initState m) (.startEl root attrs :: rest) =
        (initState m, some (.formatVersion none)) := by
      unfold runEvents
      rw [hstep]
    exact ⟨hrun, by rw [hrun]; rfl⟩

/-- Witness for C2: a 0.5 version is rejected carrying "0.5" and a missing
version is rejected carrying no value, with nothing emitted. -/
theorem root_version_check_witness :
    (runEvents szZero (initState Mask.all) [.startEl "osm" [("version", "0.5")]] =
       (initState Mask.all, some (.formatVersion (some "0.5"))) ∧
     emitted (runEvents szZero (initState Mask.all)
       [.startEl "osm" [("version", "0.5")]]).1 = []) ∧
    (runEvents szZero (initState Mask.all) [.startEl "osm" [("generator", "g")]] =
       (initState Mask.all, some (.formatVersion none)) ∧
     emitted (runEvents szZero (initState Mask.all)
       [.startEl "osm" [("generator", "g")]]).1 = []) :=
  ⟨(root_version_check szZero Mask.all "osm" [("version", "0.5")] [] (Or.inl rfl)).1
      "0.5" (by decide) (by decide),
   (root_version_check szZero Mask.all "osm" [("generator", "g")] [] (Or.inl rfl)).2
      (by decide)⟩

/-! Claim C3: relation member checks. -/

/-- C3: for a member start tag in the relation state, a type attribute
whose first character does not map to node, way or relation fails with the
unknown-member-type error; otherwise a zero (or absent, hence zero) ref
fails with the missing-ref error; otherwise the member triple is appended
at the end of the open member list, preserving document order. -/
theorem member_checks (s : MachineState) (attrs : List (String × String))
    (hc : s.context = .relation) :
    (¬ ((memberAttrs attrs).1 = ItemType.node ∨ (memberAttrs attrs).1 = ItemType.way ∨
        (memberAttrs attrs).1 = ItemType.relation) →
       startElement s "member" attrs = .error .unknownMemberType)
  ∧ (((memberAttrs attrs).1 = ItemType.node ∨ (memberAttrs attrs).1 = ItemType.way ∨
        (memberAttrs attrs).1 = ItemType.relation) →
     (memberAttrs attrs).2.1 = 0 →
       startElement s "member" attrs = .error .missingRef)
  ∧ (((memberAttrs attrs).1 = ItemType.node ∨ (memberAttrs attrs).1 = ItemType.way ∨
        (memberAttrs attrs).1 = ItemType.relation) →
     ¬ ((memberAttrs attrs).2.1 = 0) →
       ∃ s', startElement s "member" attrs = .ok s' ∧
         s'.rmlB = some ((s.rmlB.getD []) ++
           [MemberData.mk (memberAttrs attrs).1 (memberAttrs attrs).2.1
             (memberAttrs attrs).2.2]) ∧
         s'.context = .inObject ∧ s'.lastContext = .relation) := by
  have hred : startElement s "member" attrs = startRelationCtx s "member" attrs := by
    unfold startElement
    rw [hc]
  refine ⟨?_, ?_, ?_⟩
  · intro ht
    rw [hred]
    unfold startRelationCtx
    simp [ht]
  · intro ht hz
    rw [hred]
    unfold startRelationCtx
    simp [ht, hz]
  · intro ht hz
    rw [hred]
    unfold startRelationCtx
    simp [ht, hz]

/-- The state of a relation being read, reached by a concrete run. -/
def inRelationState : MachineState :=
  (runEvents szZero (initState Mask.all)
    [.startEl "osm" [("version", "0.6")], .startEl "relation" [("id", "1")]]).1

/-- Witness for C3 at scenario S5 of the spec: member type n with ref 0
fails with the missing-ref error. -/
theorem member_checks_witness :
    startElement inRelationState "member" [("type", "n"), ("ref", "0"), ("role", "x")] =
      .error .missingRef :=
  (member_checks inRelationState [("type", "n"), ("ref", "0"), ("role", "x")]
    (by decide)).2.1 (by decide) (by decide)

/-- The values of the visible attributes of an attribute list, in document
order. -/
def visAttrValues (attrs : List (String × String)) : List String :=
  (attrs.filter (fun p => p.1 = "visible")).map (fun p => p.2)

/-- The effect of one visible attribute value on the visible flag, as
implemented by the set_attribute model: true and false set the flag,
anything else leaves it. -/
def visApply (b : Bool) (v : String) : Bool :=
  if v = "true" then true else if v = "false" then false else b

theorem foldl_objAttrStep_visible (attrs : List (String × String)) :
    ∀ o : ObjectData, (attrs.foldl objAttrStep o).visible =
      (visAttrValues attrs).foldl visApply o.visible := by
  induction attrs with
  | nil => intro o; rfl
  | cons p rest ih =>
    intro o
    rw [List.foldl_cons]
    by_cases hp : p.1 = "visible"
    · have hv : visAttrValues (p :: rest) = p.2 :: visAttrValues rest := by
        unfold visAttrValues
        rw [List.filter_cons_of_pos (by simp [hp])]
        rfl
      have hstep : (objAttrStep o p).visible = visApply o.visible p.2 := by
        unfold objAttrStep setAttribute visApply
        rw [hp]
        simp only [String.reduceEq, if_false, if_true, reduceIte]
        split_ifs <;> rfl
      rw [hv, List.foldl_cons, ih (objAttrStep o p), hstep]
    · have hv : visAttrValues (p :: rest) = visAttrValues rest := by
        unfold visAttrValues
        rw [List.filter_cons_of_neg (by simp [hp])]
      have hstep : (objAttrStep o p).visible = o.visible := by
        unfold objAttrStep setAttribute
        split_ifs <;> simp_all
      rw [hv, ih (objAttrStep o p), hstep]

theorem initObject_visible (inDel : Bool) (attrs : List (String × String)) :
    (initObject inDel attrs).visible = (visAttrValues attrs).foldl visApply (! inDel) := by
  unfold initObject
  rw [foldl_objAttrStep_visible]
  congr 1
  cases inDel <;> rfl

theorem visFold_last_true (l : List String) (b : Bool) (h : l.getLast? = some "true") :
    l.foldl visApply b = true := by
  obtain ⟨l', rfl⟩ := List.getLast?_eq_some_iff.mp h
  rw [List.foldl_append]
  rfl

theorem visFold_last_false (l : List String) (b : Bool) (h : l.getLast? = some "false") :
    l.foldl visApply b = false := by
  obtain ⟨l', rfl⟩ := List.getLast?_eq_some_iff.mp h
  rw [List.foldl_append]
  rfl

/-- C1 amended: in the top state, a start tag delete sets the in-delete
flag and the matching end tag delete clears it; start tags create and
modify leave the flag untouched (the source has no branch for them); the
flag is maintained whatever the root element was; every node, way or
relation started while the flag is set is constructed from init_object
with visible false unless a visible attribute overrides it, and with the
flag clear the entity is visible unless an attribute sets it false
(changesets are built by init_changeset, which never consults the flag and
has no visible field). -/
theorem delete_section_semantics (sz : Entity → Nat) (s : MachineState)
    (hc : s.context = .top) (htl : s.tlB = none) :
    (∀ attrs, startElement s "delete" attrs = .ok { s with inDeleteSection := true })
  ∧ (endElement sz s "delete" = .ok { s with inDeleteSection := false })
  ∧ (∀ attrs, startElement s "create" attrs = .ok s)
  ∧ (∀ attrs, startElement s "modify" attrs = .ok s)
  ∧ (∀ attrs, s.mask.node = true →
      ∃ s', startElement s "node" attrs = .ok s' ∧
        s'.nodeB = some { obj := initObject s.inDeleteSection attrs } ∧
        s'.context = .node)
  ∧ (∀ attrs, s.mask.way = true →
      ∃ s', startElement s "way" attrs = .ok s' ∧
        s'.wayB = some { obj := initObject s.inDeleteSection attrs } ∧
        s'.context = .way)
  ∧ (∀ attrs, s.mask.relation = true →
      ∃ s', startElement s "relation" attrs = .ok s' ∧
        s'.relB = some { obj := initObject s.inDeleteSection attrs } ∧
        s'.context = .relation)
  ∧ (∀ inDel attrs, visAttrValues attrs = [] →
      (initObject inDel attrs).visible = ! inDel)
  ∧ (∀ inDel attrs, (visAttrValues attrs).getLast? = some "false" →
      (initObject inDel attrs).visible = false)
  ∧ (∀ inDel attrs, (visAttrValues attrs).getLast? = some "true" →
      (initObject inDel attrs).visible = true) := by
  have hred : ∀ el attrs, startElement s el attrs = startTop s el attrs := by
    intro el attrs
    unfold startElement
    rw [hc]
  refine ⟨?_, ?_, ?_, ?_, ?_, ?_, ?_, ?_, ?_, ?_⟩
  · intro attrs
    rw [hred]
    unfold startTop
    simp [htl]
  · unfold endElement
    rw [hc]
    simp
  · intro attrs
    rw [hred]
    unfold startTop
    simp [htl]
  · intro attrs
    rw [hred]
    unfold startTop
    simp [htl]
  · intro attrs hm
    rw [hred]
    unfold startTop
    simp [htl, hm]
  · intro attrs hm
    rw [hred]
    unfold startTop
    simp [htl, hm]
  · intro attrs hm
    rw [hred]
    unfold startTop
    simp [htl, hm]
  · intro inDel attrs h
    rw [initObject_visible, h]
    rfl
  · intro inDel attrs h
    rw [initObject_visible, visFold_last_false _ _ h]
  · intro inDel attrs h
    rw [initObject_visible, visFold_last_true _ _ h]

/-- A top state with the delete flag set, reached concretely. -/
def topDeleteState : MachineState :=
  { initState Mask.all with context := .top, inDeleteSection := true }

/-- Witness for C1 at a concrete top state: the delete start tag sets the
flag, and a node started with the flag set and no visible attribute is
built invisible. -/
theorem delete_section_semantics_witness :
    startElement topDeleteState "delete" [] =
      .ok { topDeleteState with inDeleteSection := true } ∧
    (initObject true [("id", "7")]).visible = ! true :=
  ⟨(delete_section_semantics szZero topDeleteState rfl rfl).1 [],
   (delete_section_semantics szZero topDeleteState rfl rfl).2.2.2.2.2.2.2.1 true
     [("id", "7")] (by decide)⟩

/-- The number of sub-list builders alive in a state. -/
def aliveSubBuilders (s : MachineState) : Nat :=
  (if s.tlB.isSome then 1 else 0) + (if s.wnlB.isSome then 1 else 0) +
  (if s.rmlB.isSome then 1 else 0) + (if s.discB.isSome then 1 else 0)

/-- Which sub-list builders may be alive in each context: outside an entity
none are; inside an entity only the ones its children can open, and never
two at once. -/
def ctxInv (tl : Option (List (String × String))) (wnl : Option (List Int))
    (rml : Option (List MemberData)) (disc : Option (List CommentData)) :
    Context → Prop
  | .node => wnl = none ∧ rml = none ∧ disc = none
  | .way => rml = none ∧ disc = none ∧ (tl = none ∨ wnl = none)
  | .relation => wnl = none ∧ disc = none ∧ (tl = none ∨ rml = none)
  | .changeset => wnl = none ∧ rml = none ∧ (tl = none ∨ disc = none)
  | .discussion => wnl = none ∧ rml = none ∧ (tl = none ∨ disc = none)
  | .comment => wnl = none ∧ rml = none ∧ (tl = none ∨ disc = none)
  | .commentText => wnl = none ∧ rml = none ∧ (tl = none ∨ disc = none)
  | .inObject => True
  | _ => tl = none ∧ wnl = none ∧ rml = none ∧ disc = none

/-- The sub-list builder invariant of the machine: the constraint of the
current context, or of the saved context while skipping an unknown
element. -/
def SubInv (s : MachineState) : Prop :=
  if s.context = .inObject then
    ¬ (s.lastContext = .inObject) ∧ ctxInv s.tlB s.wnlB s.rmlB s.discB s.lastContext
  else ctxInv s.tlB s.wnlB s.rmlB s.discB s.context

theorem SubInv_congr (s t : MachineState) (h1 : t.context = s.context)
    (h2 : t.lastContext = s.lastContext) (h3 : t.tlB = s.tlB) (h4 : t.wnlB = s.wnlB)
    (h5 : t.rmlB = s.rmlB) (h6 : t.discB = s.discB) : SubInv s → SubInv t := by
  unfold SubInv
  rw [h1, h2, h3, h4, h5, h6]
  exact id

theorem SubInv_flushBuffer (sz : Entity → Nat) (s : MachineState) (h : SubInv s) :
    SubInv (flushBuffer sz s) :=
  SubInv_congr s (flushBuffer sz s) (by simp) (by simp) (by simp) (by simp) (by simp)
    (by simp) h

theorem SubInv_step (sz : Entity → Nat) (s s' : MachineState) (e : XmlEvent)
    (hinv : SubInv s) (hs : step sz s e = .ok s') : SubInv s' := by
  cases e with
  | chars t =>
    simp only [step, Except.ok.injEq] at hs
    subst hs
    unfold charactersEv
    split <;> exact hinv
  | startEl el attrs =>
    simp only [step] at hs
    unfold startElement at hs
    cases hctx : s.context <;> simp only [hctx] at hs
    case root =>
      simp [SubInv, hctx, ctxInv] at hinv
      unfold startRoot at hs
      split_ifs at hs
      all_goals
        (split at hs
         · simp at hs
         · split_ifs at hs
           simp only [Except.ok.injEq] at hs
           subst hs
           simp [SubInv, ctxInv, hinv.1, hinv.2.1, hinv.2.2.1, hinv.2.2.2])
    case top =>
      simp [SubInv, hctx, ctxInv] at hinv
      obtain ⟨ht1, ht2, ht3, ht4⟩ := hinv
      unfold startTop at hs
      rw [ht1] at hs
      simp only [Option.isSome_none, Bool.false_eq_true, if_false] at hs
      split_ifs at hs <;>
        (simp only [Except.ok.injEq] at hs; subst hs;
         simp [SubInv, ctxInv, hctx, ht1, ht2, ht3, ht4])
    case node =>
      simp [SubInv, hctx, ctxInv] at hinv
      unfold startNodeCtx at hs
      split_ifs at hs <;>
        (simp only [Except.ok.injEq] at hs; subst hs;
         simp [SubInv, ctxInv, hctx, hinv.1, hinv.2.1, hinv.2.2])
    case way =>
      simp [SubInv, hctx, ctxInv] at hinv
      unfold startWayCtx at hs
      split_ifs at hs <;>
        (simp only [Except.ok.injEq] at hs; subst hs;
         simp [SubInv, ctxInv, hctx, hinv.1, hinv.2.1, hinv.2.2])
    case relation =>
      simp [SubInv, hctx, ctxInv] at hinv
      unfold startRelationCtx at hs
      split_ifs at hs <;>
        (simp only [Except.ok.injEq] at hs; subst hs;
         simp [SubInv, ctxInv, hctx, hinv.1, hinv.2.1, hinv.2.2])
    case changeset =>
      simp [SubInv, hctx, ctxInv] at hinv
      unfold startChangesetCtx at hs
      split_ifs at hs <;>
        (simp only [Except.ok.injEq] at hs; subst hs;
         simp [SubInv, ctxInv, hctx, hinv.1, hinv.2.1, hinv.2.2])
    case discussion =>
      simp [SubInv, hctx, ctxInv] at hinv
      unfold startDiscussionCtx at hs
      split_ifs at hs
      · rcases hd : s.discB with _ | cs <;> simp only [hd] at hs
        · simp at hs
        · simp only [Except.ok.injEq] at hs
          subst hs
          have htl : s.tlB = none := by
            rcases hinv.2.2 with h | h
            · exact h
            · rw [h] at hd; cases hd
          simp [SubInv, ctxInv, hctx, hinv.1, hinv.2.1, htl]
      · simp only [Except.ok.injEq] at hs
        subst hs
        simp [SubInv, ctxInv, hctx, hinv.1, hinv.2.1, hinv.2.2]
    case comment =>
      simp [SubInv, hctx, ctxInv] at hinv
      simp only [Except.ok.injEq] at hs
      subst hs
      split <;> simp [SubInv, ctxInv, hctx, hinv.1, hinv.2.1, hinv.2.2]
    case commentText =>
      simp only [Except.ok.injEq] at hs
      subst hs
      exact hinv
    case ignoredNode =>
      simp only [Except.ok.injEq] at hs
      subst hs
      exact hinv
    case ignoredWay =>
      simp only [Except.ok.injEq] at hs
      subst hs
      exact hinv
    case ignoredRelation =>
      simp only [Except.ok.injEq] at hs
      subst hs
      exact hinv
    case ignoredChangeset =>
      simp only [Except.ok.injEq] at hs
      subst hs
      exact hinv
    case inObject => simp at hs
  | endEl el =>
    simp only [step] at hs
    unfold endElement at hs
    cases hctx : s.context <;> simp only [hctx] at hs
    case root => simp at hs
    case top =>
      simp [SubInv, hctx, ctxInv] at hinv
      split_ifs at hs <;>
        (simp only [Except.ok.injEq] at hs; subst hs;
         simp [SubInv, ctxInv, hctx, hinv.1, hinv.2.1, hinv.2.2.1, hinv.2.2.2])
    case node =>
      simp [SubInv, hctx, ctxInv] at hinv
      split_ifs at hs
      rcases hb : s.nodeB with _ | b <;> simp only [hb] at hs <;>
        simp only [Except.ok.injEq] at hs <;> subst hs
      · simp [SubInv, ctxInv, hinv.1, hinv.2.1, hinv.2.2]
      · apply SubInv_flushBuffer
        simp [SubInv, ctxInv, hinv.1, hinv.2.1, hinv.2.2]
    case way =>
      simp [SubInv, hctx, ctxInv] at hinv
      split_ifs at hs
      rcases hb : s.wayB with _ | b <;> simp only [hb] at hs <;>
        simp only [Except.ok.injEq] at hs <;> subst hs
      · simp [SubInv, ctxInv, hinv.1, hinv.2.1]
      · apply SubInv_flushBuffer
        simp [SubInv, ctxInv, hinv.1, hinv.2.1]
    case relation =>
      simp [SubInv, hctx, ctxInv] at hinv
      split_ifs at hs
      rcases hb : s.relB with _ | b <;> simp only [hb] at hs <;>
        simp only [Except.ok.injEq] at hs <;> subst hs
      · simp [SubInv, ctxInv, hinv.1, hinv.2.1]
      · apply SubInv_flushBuffer
        simp [SubInv, ctxInv, hinv.1, hinv.2.1]
    case changeset =>
      simp [SubInv, hctx, ctxInv] at hinv
      split_ifs at hs
      rcases hb : s.csB with _ | b <;> simp only [hb] at hs <;>
        simp only [Except.ok.injEq] at hs <;> subst hs
      · simp [SubInv, ctxInv, hinv.1, hinv.2.1]
      · apply SubInv_flushBuffer
        simp [SubInv, ctxInv, hinv.1, hinv.2.1]
    case discussion =>
      simp [SubInv, hctx, ctxInv] at hinv
      split_ifs at hs
      simp only [Except.ok.injEq] at hs
      subst hs
      simp [SubInv, ctxInv, hinv.1, hinv.2.1, hinv.2.2]
    case comment =>
      simp [SubInv, hctx, ctxInv] at hinv
      split_ifs at hs
      simp only [Except.ok.injEq] at hs
      subst hs
      simp [SubInv, ctxInv, hinv.1, hinv.2.1, hinv.2.2]
    case commentText =>
      simp [SubInv, hctx, ctxInv] at hinv
      split_ifs at hs
      rcases hd : s.discB with _ | cs <;> simp only [hd] at hs
      · simp at hs
      · simp only [Except.ok.injEq] at hs
        subst hs
        have htl : s.tlB = none := by
          rcases hinv.2.2 with h | h
          · exact h
          · rw [h] at hd; cases hd
        simp [SubInv, ctxInv, hinv.1, hinv.2.1, htl]
    case inObject =>
      simp [SubInv, hctx] at hinv
      simp only [Except.ok.injEq] at hs
      subst hs
      simp only [SubInv]
      split
      · next hlast => exact absurd hlast hinv.1
      · exact hinv.2
    case ignoredNode =>
      simp [SubInv, hctx, ctxInv] at hinv
      split_ifs at hs <;> (simp only [Except.ok.injEq] at hs; subst hs) <;>
        simp [SubInv, ctxInv, hctx, hinv.1, hinv.2.1, hinv.2.2.1, hinv.2.2.2]
    case ignoredWay =>
      simp [SubInv, hctx, ctxInv] at hinv
      split_ifs at hs <;> (simp only [Except.ok.injEq] at hs; subst hs) <;>
        simp [SubInv, ctxInv, hctx, hinv.1, hinv.2.1, hinv.2.2.1, hinv.2.2.2]
    case ignoredRelation =>
      simp [SubInv, hctx, ctxInv] at hinv
      split_ifs at hs <;> (simp only [Except.ok.injEq] at hs; subst hs) <;>
        simp [SubInv, ctxInv, hctx, hinv.1, hinv.2.1, hinv.2.2.1, hinv.2.2.2]
    case ignoredChangeset =>
      simp [SubInv, hctx, ctxInv] at hinv
      split_ifs at hs <;> (simp only [Except.ok.injEq] at hs; subst hs) <;>
        simp [SubInv, ctxInv, hctx, hinv.1, hinv.2.1, hinv.2.2.1, hinv.2.2.2]

theorem ctxInv_alive (tl : Option (List (String × String))) (wnl : Option (List Int))
    (rml : Option (List MemberData)) (disc : Option (List CommentData)) (c : Context)
    (hc : ¬ (c = Context.inObject)) (h : ctxInv tl wnl rml disc c) :
    (if tl.isSome then 1 else 0) + (if wnl.isSome then 1 else 0) +
      (if rml.isSome then 1 else 0) + (if disc.isSome then 1 else 0) ≤ 1 := by
  cases c
  case inObject => exact absurd rfl hc
  case node =>
    obtain ⟨h2, h3, h4⟩ := h
    cases tl <;> simp [h2, h3, h4]
  case way =>
    obtain ⟨h3, h4, h5⟩ := h
    rcases h5 with h5 | h5
    · cases wnl <;> simp [h3, h4, h5]
    · cases tl <;> simp [h3, h4, h5]
  case relation =>
    obtain ⟨h3, h4, h5⟩ := h
    rcases h5 with h5 | h5
    · cases rml <;> simp [h3, h4, h5]
    · cases tl <;> simp [h3, h4, h5]
  case changeset =>
    obtain ⟨h3, h4, h5⟩ := h
    rcases h5 with h5 | h5
    · cases disc <;> simp [h3, h4, h5]
    · cases tl <;> simp [h3, h4, h5]
  case discussion =>
    obtain ⟨h3, h4, h5⟩ := h
    rcases h5 with h5 | h5
    · cases disc <;> simp [h3, h4, h5]
    · cases tl <;> simp [h3, h4, h5]
  case comment =>
    obtain ⟨h3, h4, h5⟩ := h
    rcases h5 with h5 | h5
    · cases disc <;> simp [h3, h4, h5]
    · cases tl <;> simp [h3, h4, h5]
  case commentText =>
    obtain ⟨h3, h4, h5⟩ := h
    rcases h5 with h5 | h5
    · cases disc <;> simp [h3, h4, h5]
    · cases tl <;> simp [h3, h4, h5]
  all_goals
    (obtain ⟨h1, h2, h3, h4⟩ := h
     simp [h1, h2, h3, h4])

theorem SubInv_alive (s : MachineState) (h : SubInv s) : aliveSubBuilders s ≤ 1 := by
  unfold SubInv at h
  unfold aliveSubBuilders
  split at h
  · exact ctxInv_alive _ _ _ _ _ h.1 h.2
  · next hc => exact ctxInv_alive _ _ _ _ _ hc h

theorem SubInv_runEvents (sz : Entity → Nat) (evs : List XmlEvent) :
    ∀ s : MachineState, SubInv s → SubInv (runEvents sz s evs).1 := by
  induction evs with
  | nil => intro s h; exact h
  | cons e rest ih =>
    intro s h
    unfold runEvents
    cases hs : step sz s e
    · exact h
    · exact ih _ (SubInv_step sz s _ e h hs)

theorem SubInv_init (m : Mask) : SubInv (initState m) := by
  simp [SubInv, initState, ctxInv]

/-- C5 amended: over every run of the machine at most one sub-list builder
(tag list, way-node list, member list, discussion) is alive at any time;
the machine discards the previous one before creating a different one.
(The second half of the claim, that each nested list kind appears at most
once per entity, is refuted separately: a list kind can be reopened.) -/
theorem sublist_builders_at_most_one_alive (sz : Entity → Nat) (m : Mask)
    (evs : List XmlEvent) :
    aliveSubBuilders (runEvents sz (initState m) evs).1 ≤ 1 :=
  SubInv_alive _ (SubInv_runEvents sz evs (initState m) (SubInv_init m))

/-! Claim C4: header promise resolution. -/

/-- A start event for one of the four entity elements (the events that
cause the transition from Top into an entity or ignored state). -/
def isTopEntityStart : XmlEvent → Bool
  | .startEl n _ => n = "node" || n = "way" || n = "relation" || n = "changeset"
  | _ => false

/-- An end event for the root element. -/
def isRootEnd : XmlEvent → Bool
  | .endEl n => n = "osm" || n = "osmChange"
  | _ => false

theorem headerIsDone_resolved_of_done {s : MachineState} (h : s.headerDone = true) :
    (headerIsDone s).resolvedHeader = s.resolvedHeader := by
  unfold headerIsDone
  simp [h]

theorem headerIsDone_resolved_of_not {s : MachineState} (h : s.headerDone = false) :
    (headerIsDone s).resolvedHeader = some s.header := by
  unfold headerIsDone
  simp [h]

/-- The attribute fold of the root element never touches the
multi-version flag (set only writes kv). -/
theorem rootAttrs_mv (attrs : List (String × String)) :
    ∀ h0 h : HeaderData, attrs.foldlM rootAttrStep h0 = .ok h →
      h.hasMultipleObjectVersions = h0.hasMultipleObjectVersions := by
  induction attrs with
  | nil =>
    intro h0 h hh
    cases hh
    rfl
  | cons p rest ih =>
    intro h0 h hh
    rw [List.foldlM_cons] at hh
    unfold rootAttrStep at hh
    split_ifs at hh
    · exact (ih (h0.set "version" p.2) h hh).trans rfl
    · exact Except.noConfusion hh
    · exact (ih (h0.set "generator" p.2) h hh).trans rfl
    · exact ih h0 h hh

/-- Effects of a successful root-element start on the promise and root
bookkeeping. -/
theorem startRoot_effects (s s' : MachineState) (el : String) (attrs : List (String × String))
    (hs : startRoot s el attrs = .ok s') :
    s'.headerDone = s.headerDone ∧ s'.resolvedHeader = s.resolvedHeader ∧
    s'.context = .top ∧ s'.rootCount = s.rootCount + 1 ∧
    ((s'.header.hasMultipleObjectVersions = true ∧ s'.sawOsmChange = true) ∨
     (s'.header.hasMultipleObjectVersions = s.header.hasMultipleObjectVersions ∧
      s'.sawOsmChange = s.sawOsmChange)) := by
  unfold startRoot at hs
  split_ifs at hs with hroot hoc
  · split at hs
    · exact Except.noConfusion hs
    · rename_i hh hfold
      split_ifs at hs
      simp only [Except.ok.injEq] at hs
      subst hs
      exact ⟨rfl, rfl, rfl, rfl,
        Or.inl ⟨(rootAttrs_mv attrs _ _ hfold).trans rfl, by simp [hoc]⟩⟩
  · split at hs
    · exact Except.noConfusion hs
    · rename_i hh hfold
      split_ifs at hs
      simp only [Except.ok.injEq] at hs
      subst hs
      exact ⟨rfl, rfl, rfl, rfl,
        Or.inr ⟨(rootAttrs_mv attrs _ _ hfold).trans rfl, by simp [hoc]⟩⟩

/-- How a single event affects the header-promise and root bookkeeping:
either the promise fields are untouched, or the promise flips from pending
to resolved with a copy of the current header, which happens only in the
top context on an entity start or a root end; either the root fields are
untouched, or a root start bumps the root counter and sets the
multi-version flag and the osmChange observer together; and the machine
leaves the root context only by a root start. -/
theorem step_header_root_effects (sz : Entity → Nat) (s s' : MachineState) (e : XmlEvent)
    (hs : step sz s e = .ok s') :
    ((s'.headerDone = s.headerDone ∧ s'.resolvedHeader = s.resolvedHeader)
     ∨ (s.headerDone = false ∧ s'.headerDone = true ∧ s'.resolvedHeader = some s.header ∧
        s.context = .top ∧ (isTopEntityStart e = true ∨ isRootEnd e = true)))
  ∧ ((s'.header.hasMultipleObjectVersions = s.header.hasMultipleObjectVersions ∧
      s'.sawOsmChange = s.sawOsmChange ∧ s'.rootCount = s.rootCount)
     ∨ (s.context = .root ∧ s'.rootCount = s.rootCount + 1 ∧
        ((s'.header.hasMultipleObjectVersions = true ∧ s'.sawOsmChange = true)
         ∨ (s'.header.hasMultipleObjectVersions = s.header.hasMultipleObjectVersions ∧
            s'.sawOsmChange = s.sawOsmChange))))
  ∧ (s.context = .root → (s'.context = .root ∨ s'.rootCount = s.rootCount + 1)) := by
  cases e with
  | chars t =>
    simp only [step, Except.ok.injEq] at hs
    subst hs
    unfold charactersEv
    split <;>
      exact ⟨Or.inl ⟨rfl, rfl⟩, Or.inl ⟨rfl, rfl, rfl⟩, fun hcr => Or.inl hcr⟩
  | startEl el attrs =>
    simp only [step] at hs
    unfold startElement at hs
    cases hctx : s.context <;> simp only [hctx] at hs
    case root =>
      obtain ⟨e1, e2, e3, e4, e5⟩ := startRoot_effects s s' el attrs hs
      exact ⟨Or.inl ⟨e1, e2⟩, Or.inr ⟨rfl, e4, e5⟩, fun _ => Or.inr e4⟩
    case top =>
      unfold startTop at hs
      rcases htl : s.tlB.isSome with _ | _ <;> rw [htl] at hs
      case true => exact Except.noConfusion hs
      simp only [Bool.false_eq_true, if_false] at hs
      split_ifs at hs <;>
        (simp only [Except.ok.injEq] at hs; subst hs) <;>
        [skip; skip; skip; skip; skip; skip; skip; skip;
         exact ⟨Or.inl ⟨rfl, rfl⟩, Or.inl ⟨rfl, rfl, rfl⟩, fun hcr => Context.noConfusion hcr⟩;
         exact ⟨Or.inl ⟨rfl, rfl⟩, Or.inl ⟨rfl, rfl, rfl⟩, fun hcr => Context.noConfusion hcr⟩;
         exact ⟨Or.inl ⟨rfl, rfl⟩, Or.inl ⟨rfl, rfl, rfl⟩, fun hcr => Context.noConfusion hcr⟩]
      all_goals
        (refine ⟨?_, Or.inl ⟨by simp, by simp, by simp⟩, fun hcr => Context.noConfusion hcr⟩
         rcases hd : s.headerDone with _ | _
         · exact Or.inr ⟨rfl, by simp, headerIsDone_resolved_of_not rfl, rfl,
             Or.inl (by simp_all [isTopEntityStart])⟩
         · exact Or.inl ⟨by simp, headerIsDone_resolved_of_done rfl⟩)
    case node =>
      unfold startNodeCtx at hs
      split_ifs at hs <;> (simp only [Except.ok.injEq] at hs; subst hs) <;>
        exact ⟨Or.inl ⟨rfl, rfl⟩, Or.inl ⟨rfl, rfl, rfl⟩, fun hcr => Context.noConfusion hcr⟩
    case way =>
      unfold startWayCtx at hs
      split_ifs at hs <;> (simp only [Except.ok.injEq] at hs; subst hs) <;>
        exact ⟨Or.inl ⟨rfl, rfl⟩, Or.inl ⟨rfl, rfl, rfl⟩, fun hcr => Context.noConfusion hcr⟩
    case relation =>
      unfold startRelationCtx at hs
      split_ifs at hs <;>
        first
          | exact Except.noConfusion hs
          | ((simp only [Except.ok.injEq] at hs; subst hs);
             exact ⟨Or.inl ⟨rfl, rfl⟩, Or.inl ⟨rfl, rfl, rfl⟩,
               fun hcr => Context.noConfusion hcr⟩)
    case changeset =>
      unfold startChangesetCtx at hs
      split_ifs at hs <;> (simp only [Except.ok.injEq] at hs; subst hs) <;>
        exact ⟨Or.inl ⟨rfl, rfl⟩, Or.inl ⟨rfl, rfl, rfl⟩, fun hcr => Context.noConfusion hcr⟩
    case discussion =>
      unfold startDiscussionCtx at hs
      split_ifs at hs
      · rcases hd : s.discB with _ | cs <;> simp only [hd] at hs
        · exact Except.noConfusion hs
        · simp only [Except.ok.injEq] at hs
          subst hs
          exact ⟨Or.inl ⟨rfl, rfl⟩, Or.inl ⟨rfl, rfl, rfl⟩, fun hcr => Context.noConfusion hcr⟩
      · simp only [Except.ok.injEq] at hs
        subst hs
        exact ⟨Or.inl ⟨rfl, rfl⟩, Or.inl ⟨rfl, rfl, rfl⟩, fun hcr => Context.noConfusion hcr⟩
    case comment =>
      simp only [Except.ok.injEq] at hs
      subst hs
      split <;>
        exact ⟨Or.inl ⟨rfl, rfl⟩, Or.inl ⟨rfl, rfl, rfl⟩, fun hcr => Context.noConfusion hcr⟩
    case commentText =>
      simp only [Except.ok.injEq] at hs
      subst hs
      exact ⟨Or.inl ⟨rfl, rfl⟩, Or.inl ⟨rfl, rfl, rfl⟩, fun hcr => Context.noConfusion hcr⟩
    case ignoredNode =>
      simp only [Except.ok.injEq] at hs
      subst hs
      exact ⟨Or.inl ⟨rfl, rfl⟩, Or.inl ⟨rfl, rfl, rfl⟩, fun hcr => Context.noConfusion hcr⟩
    case ignoredWay =>
      simp only [Except.ok.injEq] at hs
      subst hs
      exact ⟨Or.inl ⟨rfl, rfl⟩, Or.inl ⟨rfl, rfl, rfl⟩, fun hcr => Context.noConfusion hcr⟩
    case ignoredRelation =>
      simp only [Except.ok.injEq] at hs
      subst hs
      exact ⟨Or.inl ⟨rfl, rfl⟩, Or.inl ⟨rfl, rfl, rfl⟩, fun hcr => Context.noConfusion hcr⟩
    case ignoredChangeset =>
      simp only [Except.ok.injEq] at hs
      subst hs
      exact ⟨Or.inl ⟨rfl, rfl⟩, Or.inl ⟨rfl, rfl, rfl⟩, fun hcr => Context.noConfusion hcr⟩
    case inObject => exact Except.noConfusion hs
  | endEl el =>
    simp only [step] at hs
    unfold endElement at hs
    cases hctx : s.context <;> simp only [hctx] at hs
    case root => exact Except.noConfusion hs
    case top =>
      split_ifs at hs <;> (simp only [Except.ok.injEq] at hs; subst hs)
      · -- root end
        refine ⟨?_, Or.inl ⟨by simp, by simp, by simp⟩, fun hcr => Context.noConfusion hcr⟩
        rcases hd : s.headerDone with _ | _
        · exact Or.inr ⟨rfl, by simp, headerIsDone_resolved_of_not hd, rfl,
            Or.inr (by simp_all [isRootEnd])⟩
        · exact Or.inl ⟨by simp, headerIsDone_resolved_of_done hd⟩
      · exact ⟨Or.inl ⟨rfl, rfl⟩, Or.inl ⟨rfl, rfl, rfl⟩, fun hcr => Context.noConfusion hcr⟩
      · exact ⟨Or.inl ⟨rfl, rfl⟩, Or.inl ⟨rfl, rfl, rfl⟩, fun hcr => Context.noConfusion hcr⟩
    case node =>
      split_ifs at hs
      rcases hb : s.nodeB with _ | b <;> simp only [hb] at hs <;>
        (simp only [Except.ok.injEq] at hs; subst hs) <;>
        exact ⟨Or.inl ⟨by simp, by simp⟩, Or.inl ⟨by simp, by simp, by simp⟩,
          fun hcr => Context.noConfusion hcr⟩
    case way =>
      split_ifs at hs
      rcases hb : s.wayB with _ | b <;> simp only [hb] at hs <;>
        (simp only [Except.ok.injEq] at hs; subst hs) <;>
        exact ⟨Or.inl ⟨by simp, by simp⟩, Or.inl ⟨by simp, by simp, by simp⟩,
          fun hcr => Context.noConfusion hcr⟩
    case relation =>
      split_ifs at hs
      rcases hb : s.relB with _ | b <;> simp only [hb] at hs <;>
        (simp only [Except.ok.injEq] at hs; subst hs) <;>
        exact ⟨Or.inl ⟨by simp, by simp⟩, Or.inl ⟨by simp, by simp, by simp⟩,
          fun hcr => Context.noConfusion hcr⟩
    case changeset =>
      split_ifs at hs
      rcases hb : s.csB with _ | b <;> simp only [hb] at hs <;>
        (simp only [Except.ok.injEq] at hs; subst hs) <;>
        exact ⟨Or.inl ⟨by simp, by simp⟩, Or.inl ⟨by simp, by simp, by simp⟩,
          fun hcr => Context.noConfusion hcr⟩
    case discussion =>
      split_ifs at hs
      simp only [Except.ok.injEq] at hs
      subst hs
      exact ⟨Or.inl ⟨rfl, rfl⟩, Or.inl ⟨rfl, rfl, rfl⟩, fun hcr => Context.noConfusion hcr⟩
    case comment =>
      split_ifs at hs
      simp only [Except.ok.injEq] at hs
      subst hs
      exact ⟨Or.inl ⟨rfl, rfl⟩, Or.inl ⟨rfl, rfl, rfl⟩, fun hcr => Context.noConfusion hcr⟩
    case commentText =>
      split_ifs at hs
      rcases hd : s.discB with _ | cs <;> simp only [hd] at hs
      · exact Except.noConfusion hs
      · simp only [Except.ok.injEq] at hs
        subst hs
        exact ⟨Or.inl ⟨rfl, rfl⟩, Or.inl ⟨rfl, rfl, rfl⟩, fun hcr => Context.noConfusion hcr⟩
    case inObject =>
      simp only [Except.ok.injEq] at hs
      subst hs
      exact ⟨Or.inl ⟨rfl, rfl⟩, Or.inl ⟨rfl, rfl, rfl⟩, fun hcr => Context.noConfusion hcr⟩
    case ignoredNode =>
      split_ifs at hs <;> (simp only [Except.ok.injEq] at hs; subst hs) <;>
        exact ⟨Or.inl ⟨rfl, rfl⟩, Or.inl ⟨rfl, rfl, rfl⟩, fun hcr => Context.noConfusion hcr⟩
    case ignoredWay =>
      split_ifs at hs <;> (simp only [Except.ok.injEq] at hs; subst hs) <;>
        exact ⟨Or.inl ⟨rfl, rfl⟩, Or.inl ⟨rfl, rfl, rfl⟩, fun hcr => Context.noConfusion hcr⟩
    case ignoredRelation =>
      split_ifs at hs <;> (simp only [Except.ok.injEq] at hs; subst hs) <;>
        exact ⟨Or.inl ⟨rfl, rfl⟩, Or.inl ⟨rfl, rfl, rfl⟩, fun hcr => Context.noConfusion hcr⟩
    case ignoredChangeset =>
      split_ifs at hs <;> (simp only [Except.ok.injEq] at hs; subst hs) <;>
        exact ⟨Or.inl ⟨rfl, rfl⟩, Or.inl ⟨rfl, rfl, rfl⟩, fun hcr => Context.noConfusion hcr⟩

/-- The inductive invariant tying the resolved header to the root element:
the header's multi-version flag always equals the osmChange observer; a
resolved promise implies a root element was seen; and the resolved copy
carries the flag of the root seen before resolution unless a second root
element occurred. -/
def C4Inv (s : MachineState) : Prop :=
  (s.header.hasMultipleObjectVersions = s.sawOsmChange)
  ∧ (s.headerDone = true → 1 ≤ s.rootCount)
  ∧ (¬ (s.context = .root) → 1 ≤ s.rootCount)
  ∧ (s.headerDone = false → s.resolvedHeader = none)
  ∧ (∀ h, s.resolvedHeader = some h →
       s.headerDone = true ∧
         (h.hasMultipleObjectVersions = s.sawOsmChange ∨ 2 ≤ s.rootCount))

theorem C4Inv_step (sz : Entity → Nat) (s s' : MachineState) (e : XmlEvent)
    (hi : C4Inv s) (hs : step sz s e = .ok s') : C4Inv s' := by
  obtain ⟨i1, i2, i3, i4, i5⟩ := hi
  obtain ⟨H1, H2, H3⟩ := step_header_root_effects sz s s' e hs
  have hmono : s.rootCount ≤ s'.rootCount := by
    rcases H2 with ⟨_, _, h⟩ | ⟨_, h, _⟩ <;> omega
  refine ⟨?_, ?_, ?_, ?_, ?_⟩
  · rcases H2 with ⟨hm, hsw, _⟩ | ⟨_, _, ⟨hm, hsw⟩ | ⟨hm, hsw⟩⟩
    · rw [hm, hsw]; exact i1
    · rw [hm, hsw]
    · rw [hm, hsw]; exact i1
  · intro hd'
    rcases H1 with ⟨hd, _⟩ | ⟨_, _, _, hctop, _⟩
    · rw [hd'] at hd
      exact le_trans (i2 hd.symm) hmono
    · have : ¬ (s.context = .root) := by rw [hctop]; intro hx; cases hx
      exact le_trans (i3 this) hmono
  · intro hc'
    by_cases hc : s.context = .root
    · rcases H3 hc with h | h
      · exact absurd h hc'
      · omega
    · exact le_trans (i3 hc) hmono
  · intro hd'
    rcases H1 with ⟨hd, hr⟩ | ⟨_, hdt, _, _⟩
    · rw [hd'] at hd
      rw [hr]
      exact i4 hd.symm
    · rw [hdt] at hd'
      cases hd'
  · intro h hres
    rcases H1 with ⟨hd, hr⟩ | ⟨hdf, hdt, hrv, hctop, _⟩
    · rw [hr] at hres
      obtain ⟨hdone, hmv⟩ := i5 h hres
      refine ⟨by rw [hd]; exact hdone, ?_⟩
      rcases H2 with ⟨_, hsw, hrc⟩ | ⟨hcroot, hrc, _⟩
      · rw [hsw, hrc]
        exact hmv
      · right
        have := i2 hdone
        omega
    · rw [hrv] at hres
      have hh : h = s.header := by
        injection hres with hres
        exact hres.symm
      subst hh
      refine ⟨hdt, ?_⟩
      rcases H2 with ⟨hm, hsw, _⟩ | ⟨hcroot, _, _⟩
      · left
        rw [hsw, ← hm]
        have hm2 : s'.header.hasMultipleObjectVersions = s.header.hasMultipleObjectVersions := hm
        rw [hm2]
        exact i1
      · rw [hctop] at hcroot
        cases hcroot

theorem C4Inv_runEvents (sz : Entity → Nat) (evs : List XmlEvent) :
    ∀ s : MachineState, C4Inv s → C4Inv (runEvents sz s evs).1 := by
  induction evs with
  | nil => intro s h; exact h
  | cons e rest ih =>
    intro s h
    unfold runEvents
    cases hs : step sz s e
    · exact h
    · exact ih _ (C4Inv_step sz s _ e h hs)

theorem C4Inv_init (m : Mask) : C4Inv (initState m) := by
  refine ⟨rfl, ?_, ?_, fun _ => rfl, ?_⟩
  · intro h; cases h
  · intro h; exact absurd rfl h
  · intro h hres; cases hres

/-- Claim C4 as stated, instrumented over event runs: within a run of XML
events (before end-of-stream), the header promise can only have been
resolved if a transition from Top into an entity or ignored state has
occurred. -/
def headerResolvesOnlyAtEntityTransition : Prop :=
  ∀ (sz : Entity → Nat) (m : Mask) (evs : List XmlEvent),
    (runEvents sz (initState m) evs).1.headerDone = true →
    0 < (runEvents sz (initState m) evs).1.entityStarts

/-- Counterexample to C4 as stated: the source also resolves the promise
in end_element when the root element closes from the Top state
(header_is_done() in the context::top case), so after a header-only
document the promise is already resolved before end-of-stream although no
entity transition happened. -/
theorem headerResolvesOnlyAtEntityTransition_false :
    ¬ headerResolvesOnlyAtEntityTransition := by
  intro h
  have h2 := h szZero Mask.all headerOnlyEvents (by decide)
  exact absurd h2 (by decide)

/-- Any accepted start tag of one of the four entity elements in the Top
state leaves the header promise resolved: every entity branch of the
context::top case calls header_is_done() before even looking at the
mask. -/
theorem startTop_entity_headerDone (s s' : MachineState) (el : String)
    (attrs : List (String × String))
    (hel : el = "node" ∨ el = "way" ∨ el = "relation" ∨ el = "changeset")
    (hs : startTop s el attrs = .ok s') : s'.headerDone = true := by
  unfold startTop at hs
  rcases htl : s.tlB.isSome with _ | _ <;> rw [htl] at hs
  · simp only [Bool.false_eq_true, if_false] at hs
    rcases hel with h | h | h | h <;> subst h <;>
      split_ifs at hs <;>
      (simp only [Except.ok.injEq] at hs; subst hs; simp_all)
  · simp at hs

/-- C4 amended: the header promise is resolved exactly once, at the first
transition from Top into an entity or ignored state, at the root end tag
seen from Top, or at end-of-stream, whichever comes first.  Part 1: after
resolution every further event is a silent no-op on the promise.  Part 2:
the flip from pending to resolved happens only in the Top state on an
entity start tag or on the root end tag.  Part 3 (the converse): whenever
an entity start tag or a root end tag is accepted in the Top state, the
promise is resolved afterwards — so the first such accepted event does
resolve a pending promise.  Part 4: the end-of-stream code resolves it if
still pending.  Part 5: the resolved header's has_multiple_object_versions
flag is true iff the root element was osmChange (stated for runs whose
root count stays at most one, which covers every well-formed document
since the XML driver delivers a single root element). -/
theorem header_promise_resolution :
    (∀ (sz : Entity → Nat) (s s' : MachineState) (e : XmlEvent),
       s.headerDone = true → step sz s e = .ok s' →
       s'.headerDone = true ∧ s'.resolvedHeader = s.resolvedHeader)
  ∧ (∀ (sz : Entity → Nat) (s s' : MachineState) (e : XmlEvent),
       s.headerDone = false → step sz s e = .ok s' → s'.headerDone = true →
       s.context = .top ∧ (isTopEntityStart e = true ∨ isRootEnd e = true))
  ∧ (∀ (sz : Entity → Nat) (s s' : MachineState) (e : XmlEvent),
       s.context = .top → step sz s e = .ok s' →
       (isTopEntityStart e = true ∨ isRootEnd e = true) →
       s'.headerDone = true)
  ∧ (∀ (sz : Entity → Nat) (s : MachineState), (finishRun sz s).headerDone = true)
  ∧ (∀ (sz : Entity → Nat) (m : Mask) (evs : List XmlEvent) (h : HeaderData),
       (runEvents sz (initState m) evs).1.rootCount ≤ 1 →
       (runEvents sz (initState m) evs).1.resolvedHeader = some h →
       (h.hasMultipleObjectVersions = true ↔
        (runEvents sz (initState m) evs).1.sawOsmChange = true)) := by
  refine ⟨?_, ?_, ?_, ?_, ?_⟩
  · intro sz s s' e hd hs
    rcases (step_header_root_effects sz s s' e hs).1 with ⟨h1, h2⟩ | ⟨hdf, _, _, _, _⟩
    · rw [h1, h2]
      exact ⟨hd, rfl⟩
    · rw [hd] at hdf
      cases hdf
  · intro sz s s' e hdf hs hdt
    rcases (step_header_root_effects sz s s' e hs).1 with ⟨h1, _⟩ | ⟨_, _, _, h4, h5⟩
    · rw [hdf] at h1
      rw [h1] at hdt
      cases hdt
    · exact ⟨h4, h5⟩
  · intro sz s s' e hc hs he
    cases e with
    | chars t =>
      rcases he with he | he <;> simp [isTopEntityStart, isRootEnd] at he
    | startEl el attrs =>
      have hel : el = "node" ∨ el = "way" ∨ el = "relation" ∨ el = "changeset" := by
        rcases he with he | he
        · simp only [isTopEntityStart, Bool.or_eq_true, decide_eq_true_eq] at he
          tauto
        · simp [isRootEnd] at he
      simp only [step] at hs
      unfold startElement at hs
      simp only [hc] at hs
      exact startTop_entity_headerDone s s' el attrs hel hs
    | endEl el =>
      have hel : el = "osm" ∨ el = "osmChange" := by
        rcases he with he | he
        · simp [isTopEntityStart] at he
        · simpa [isRootEnd] using he
      simp only [step] at hs
      unfold endElement at hs
      simp only [hc] at hs
      rw [if_pos hel] at hs
      simp only [Except.ok.injEq] at hs
      subst hs
      simp
  · intro sz s
    unfold finishRun
    split <;> simp
  · intro sz m evs h hrc hres
    obtain ⟨_, _, _, _, i5⟩ := C4Inv_runEvents sz evs (initState m) (C4Inv_init m)
    obtain ⟨_, hmv⟩ := i5 h hres
    rcases hmv with hmv | hge
    · rw [hmv]
    · omega

/-- The machine state after the root start tag of a plain osm document:
the Top state with the promise still pending. -/
def afterRootState : MachineState :=
  (runEvents szZero (initState Mask.all) [.startEl "osm" [("version", "0.6")]]).1

/-- The state after the first node start tag is accepted from
afterRootState. -/
def afterNodeStartState : MachineState :=
  ((step szZero afterRootState (.startEl "node" [("id", "1")])).toOption).getD afterRootState

/-- Witness for C4: the first entity start tag accepted from the Top state
with a pending promise resolves it, and at a concrete osmChange document
the resolved header carries the multi-version flag iff the run saw the
osmChange root. -/
theorem header_promise_resolution_witness :
    afterNodeStartState.headerDone = true ∧
    (({ kv := [("version", "0.6")], hasMultipleObjectVersions := true } :
        HeaderData).hasMultipleObjectVersions = true ↔
      (runEvents szZero (initState Mask.all)
        [.startEl "osmChange" [("version", "0.6")],
         .endEl "osmChange"]).1.sawOsmChange = true) :=
  ⟨header_promise_resolution.2.2.1 szZero afterRootState afterNodeStartState
     (.startEl "node" [("id", "1")]) (by decide) (by decide) (Or.inl (by decide)),
   header_promise_resolution.2.2.2.2 szZero Mask.all
     [.startEl "osmChange" [("version", "0.6")], .endEl "osmChange"] _ (by decide) (by decide)⟩

end Libosmium
